import Mathlib

/-!
Verification of the Discord RPC bridge
(`src/extensions/js.neutralino.discordrpc/bridge.py`).

The bridge is shallowly embedded as follows.

* A Python `str` is a list of Unicode code points (`PyStr := List Nat`);
  a Python `bytes` value is likewise a list of byte values.  `cp` turns a
  Lean string literal into its code-point list.
* JSON values (`Json`) carry `Int` numbers only; `float` payloads are
  outside the model.  `dumpsVal` embeds Python's `json.dumps` with its
  default options (`ensure_ascii=True`, separators `", "` / `": "`),
  and `parseVal`/`jsonLoads` embed `json.loads` (a fuelled
  recursive-descent parser; it is slightly more liberal than CPython in
  that it does not reject overlong UTF-8 at this layer).
* Functions that can raise in Python return `Option`; `none` stands for
  the raised exception being caught by the caller's `except` clause.
-/

/-- A Python string, as its list of Unicode code points. -/
abbrev PyStr := List Nat

/-- Code points of a Lean string literal (used to embed Python string
literals such as `"steqmusic"`). -/
def cp (s : String) : PyStr := s.data.map Char.toNat

/-- Lower-case hexadecimal digit character for a value `< 16`
(as emitted by `json.dumps` in `\uXXXX` escapes). -/
def hexDigit (n : Nat) : Nat := if n < 10 then 48 + n else 87 + n

/-- The four hex digit characters of a value `< 0x10000`, big-endian. -/
def hex4 (n : Nat) : List Nat :=
  [hexDigit (n / 4096 % 16), hexDigit (n / 256 % 16), hexDigit (n / 16 % 16), hexDigit (n % 16)]

/-- Decimal digit characters of `n`, most significant first; `fuel`
bounds the recursion (`n ≤ fuel` is always sufficient). -/
def natDigitsAux : Nat → Nat → List Nat
  | 0, _ => []
  | fuel + 1, n => if n = 0 then [] else natDigitsAux fuel (n / 10) ++ [48 + n % 10]

/-- Decimal rendering of a natural number, as Python's `str`. -/
def natDigits (n : Nat) : List Nat := if n = 0 then [48] else natDigitsAux (n + 1) n

/-- Decimal rendering of a Python `int`, as Python's `str` /
`json.dumps` (a `-` sign followed by the digits when negative). -/
def cpInt (n : Int) : PyStr :=
  if n < 0 then 45 :: natDigits n.natAbs else natDigits n.toNat

mutual
/-- A JSON value as handled by Python's `json` module, restricted to
integer numbers.  `arr`/`obj` use the mutually defined list types so
that all recursion over `Json` is structural. -/
inductive Json where
  | null : Json
  | bool (b : Bool) : Json
  | int (n : Int) : Json
  | str (s : List Nat) : Json
  | arr (xs : JArr) : Json
  | obj (kvs : JObj) : Json
  deriving DecidableEq, Repr
/-- A list of JSON values (the elements of a JSON array). -/
inductive JArr where
  | nil : JArr
  | cons (hd : Json) (tl : JArr) : JArr
  deriving DecidableEq, Repr
/-- The key/value members of a JSON object, in insertion order. -/
inductive JObj where
  | nil : JObj
  | cons (k : List Nat) (v : Json) (tl : JObj) : JObj
  deriving DecidableEq, Repr
end

/-- A Python string made of Unicode scalar values (no lone surrogates):
the strings on which `json.dumps`/`json.loads` round-trip exactly. -/
def validStr (s : PyStr) : Bool :=
  s.all fun c => decide (c < 1114112) && ! (decide (55296 ≤ c) && decide (c < 57344))

mutual
/-- All strings inside the JSON value are valid (see `validStr`). -/
def validJson : Json → Bool
  | .null => true
  | .bool _ => true
  | .int _ => true
  | .str s => validStr s
  | .arr xs => validArr xs
  | .obj kvs => validObj kvs
/-- `validJson`, on array elements. -/
def validArr : JArr → Bool
  | .nil => true
  | .cons x tl => validJson x && validArr tl
/-- `validJson`, on object members (keys included). -/
def validObj : JObj → Bool
  | .nil => true
  | .cons k v tl => validStr k && validJson v && validObj tl
end

/-- How `json.dumps` (with its default `ensure_ascii=True`) renders one
string character: the two-character escapes of `ESCAPE_DCT`, printable
ASCII verbatim, `\uXXXX` for everything else, astral code points as a
surrogate pair of `\uXXXX` escapes. -/
def escChar (c : Nat) : List Nat :=
  if c = 34 then [92, 34]
  else if c = 92 then [92, 92]
  else if c = 8 then [92, 98]
  else if c = 9 then [92, 116]
  else if c = 10 then [92, 110]
  else if c = 12 then [92, 102]
  else if c = 13 then [92, 114]
  else if 32 ≤ c ∧ c ≤ 126 then [c]
  else if c < 65536 then 92 :: 117 :: hex4 c
  else
    92 :: 117 :: hex4 (55296 + (c - 65536) / 1024) ++
      (92 :: 117 :: hex4 (56320 + (c - 65536) % 1024))

/-- `escChar` over a whole string (the body of a dumped JSON string). -/
def escStr : PyStr → List Nat
  | [] => []
  | c :: rest => escChar c ++ escStr rest

mutual
/-- Python's `json.dumps` with its defaults (`ensure_ascii=True`,
separators `", "` and `": "`), producing the code points of the
resulting (pure-ASCII) string. -/
def dumpsVal : Json → List Nat
  | .null => [110, 117, 108, 108]
  | .bool true => [116, 114, 117, 101]
  | .bool false => [102, 97, 108, 115, 101]
  | .int n => cpInt n
  | .str s => 34 :: (escStr s ++ [34])
  | .arr xs => 91 :: (dumpsArr xs ++ [93])
  | .obj kvs => 123 :: (dumpsObj kvs ++ [125])
/-- The comma-separated rendering of an array's elements. -/
def dumpsArr : JArr → List Nat
  | .nil => []
  | .cons x .nil => dumpsVal x
  | .cons x (.cons y tl) => dumpsVal x ++ (44 :: 32 :: dumpsArr (.cons y tl))
/-- The comma-separated rendering of an object's members. -/
def dumpsObj : JObj → List Nat
  | .nil => []
  | .cons k v .nil => 34 :: (escStr k ++ (34 :: 58 :: 32 :: dumpsVal v))
  | .cons k v (.cons k2 v2 tl) =>
      34 :: (escStr k ++ (34 :: 58 :: 32 :: (dumpsVal v ++
        (44 :: 32 :: dumpsObj (.cons k2 v2 tl)))))
end

mutual
/-- Sufficient parser fuel for a value (see the round-trip lemmas). -/
def jfuel : Json → Nat
  | .null => 1
  | .bool _ => 1
  | .int _ => 1
  | .str _ => 1
  | .arr xs => 1 + jfuelArr xs
  | .obj kvs => 1 + jfuelObj kvs
/-- Sufficient parser fuel for an array's element list. -/
def jfuelArr : JArr → Nat
  | .nil => 0
  | .cons x tl => 1 + jfuel x + jfuelArr tl
/-- Sufficient parser fuel for an object's member list. -/
def jfuelObj : JObj → Nat
  | .nil => 0
  | .cons _ v tl => 1 + jfuel v + jfuelObj tl
end

example : dumpsVal (.obj (.cons (cp "a") (.int (-12)) .nil)) = cp "\x7b\"a\": -12\x7d" := rfl
example : dumpsVal (.arr (.cons .null (.cons (.bool true) .nil))) = cp "[null, true]" := rfl
example : dumpsVal (.str [10, 233]) = cp "\"\\n\\u00e9\"" := rfl

/-- JSON insignificant whitespace, skipped by the `json.loads` scanner. -/
def isJsonWs (c : Nat) : Bool := c = 32 || c = 9 || c = 10 || c = 13

/-- Drop leading JSON whitespace. -/
def skipWs : List Nat → List Nat
  | [] => []
  | c :: rest => if isJsonWs c then skipWs rest else c :: rest

/-- Value of one hexadecimal digit character (as accepted in `\uXXXX`). -/
def hexVal (c : Nat) : Option Nat :=
  if 48 ≤ c ∧ c ≤ 57 then some (c - 48)
  else if 97 ≤ c ∧ c ≤ 102 then some (c - 87)
  else if 65 ≤ c ∧ c ≤ 70 then some (c - 55)
  else none

/-- Value of a four-hex-digit escape body. -/
def hex4Val (h1 h2 h3 h4 : Nat) : Option Nat :=
  match hexVal h1, hexVal h2, hexVal h3, hexVal h4 with
  | some a, some b, some c, some d => some (a * 4096 + b * 256 + c * 16 + d)
  | _, _, _, _ => none

/-- Prepend a decoded character to a string-parse result. -/
def strCons (c : Nat) : Option (PyStr × List Nat) → Option (PyStr × List Nat)
  | none => none
  | some (s, r) => some (c :: s, r)

/-- One step of the `json.loads` string scanner: either the closing
quote (`(none, rest)`) or one decoded character.  Escapes are the JSON
two-character ones plus `\uXXXX`; a high-surrogate escape followed by a
low-surrogate escape is combined into one astral code point (as CPython
does); unescaped control characters are rejected (`strict=True`). -/
def unescapeOne : List Nat → Option (Option Nat × List Nat)
  | [] => none
  | c :: rest =>
    if c = 34 then some (none, rest)
    else if c = 92 then
      match rest with
      | [] => none
      | e :: rest2 =>
        if e = 34 then some (some 34, rest2)
        else if e = 92 then some (some 92, rest2)
        else if e = 47 then some (some 47, rest2)
        else if e = 98 then some (some 8, rest2)
        else if e = 102 then some (some 12, rest2)
        else if e = 110 then some (some 10, rest2)
        else if e = 114 then some (some 13, rest2)
        else if e = 116 then some (some 9, rest2)
        else if e = 117 then
          match rest2 with
          | h1 :: h2 :: h3 :: h4 :: rest3 =>
            match hex4Val h1 h2 h3 h4 with
            | none => none
            | some v =>
              if 55296 ≤ v ∧ v ≤ 56319 then
                match rest3 with
                | b1 :: b2 :: g1 :: g2 :: g3 :: g4 :: rest4 =>
                  if b1 = 92 ∧ b2 = 117 then
                    match hex4Val g1 g2 g3 g4 with
                    | none => some (some v, rest3)
                    | some w =>
                      if 56320 ≤ w ∧ w ≤ 57343 then
                        some (some (65536 + (v - 55296) * 1024 + (w - 56320)), rest4)
                      else some (some v, rest3)
                  else some (some v, rest3)
                | _ => some (some v, rest3)
              else some (some v, rest3)
          | _ => none
        else none
    else if c < 32 then none
    else some (some c, rest)

/-- The `json.loads` string scanner as a fuelled loop over
`unescapeOne` (each step consumes at least one input character, so fuel
equal to the input length is always sufficient). -/
def parseStrLoop : Nat → List Nat → Option (PyStr × List Nat)
  | 0, _ => none
  | fuel + 1, s =>
    match unescapeOne s with
    | none => none
    | some (none, r) => some ([], r)
    | some (some c, r) => strCons c (parseStrLoop fuel r)

/-- The `json.loads` string scanner, applied after the opening quote:
decodes the body up to the closing quote and returns it together with
the unconsumed input. -/
def parseStrBody (s : List Nat) : Option (PyStr × List Nat) := parseStrLoop s.length s

example : parseStrBody (cp "ab\"xy") = some (cp "ab", cp "xy") := rfl
example : parseStrBody (escStr [10, 233, 120000] ++ (34 :: cp "z")) =
    some ([10, 233, 120000], cp "z") := rfl

/-- Is `c` a decimal digit character? -/
def isDigit (c : Nat) : Bool := 48 ≤ c && c ≤ 57

/-- Consume a run of decimal digits, accumulating their value. -/
def parseDigits : Nat → List Nat → Nat × List Nat
  | acc, [] => (acc, [])
  | acc, c :: rest =>
    if isDigit c then parseDigits (acc * 10 + (c - 48)) rest else (acc, c :: rest)

/-- Does the input start with a decimal digit? -/
def digitHead : List Nat → Bool
  | [] => false
  | c :: _ => isDigit c

/-- Does the input continue a number as a float (`.`, `e`, `E`)?
Float payloads are outside this model, so the parser rejects them. -/
def floatHead : List Nat → Bool
  | [] => false
  | c :: _ => c = 46 || c = 101 || c = 69

/-- The digits of a JSON number (no sign): at least one digit, no
leading zero (as in the JSON grammar). -/
def parseNumCore (s : List Nat) : Option (Nat × List Nat) :=
  match s with
  | [] => none
  | c :: rest =>
    if ¬ isDigit c then none
    else if c = 48 ∧ digitHead rest then none
    else
      match parseDigits 0 (c :: rest) with
      | (v, r) => if floatHead r then none else some (v, r)

/-- A JSON number as scanned by `json.loads`, restricted to integers. -/
def parseNum : List Nat → Option (Int × List Nat)
  | [] => none
  | c :: rest =>
    if c = 45 then
      match parseNumCore rest with
      | none => none
      | some (v, r) => some (-(v : Int), r)
    else
      match parseNumCore (c :: rest) with
      | none => none
      | some (v, r) => some ((v : Int), r)

/-- Tag a parse result with a constructor. -/
def jmap (g : α → Json) : Option (α × List Nat) → Option (Json × List Nat)
  | none => none
  | some (a, r) => some (g a, r)

mutual
/-- The `json.loads` value scanner: one JSON value, returned with the
unconsumed input.  `fuel` bounds the recursion depth; every recursive
call decreases it by one, and `jfuel` of the value (at most the input
length plus one) is always sufficient. -/
def parseVal : Nat → List Nat → Option (Json × List Nat)
  | 0, _ => none
  | fuel + 1, s0 =>
    match skipWs s0 with
    | [] => none
    | c :: r =>
      if c = 110 then
        match r with
        | 117 :: 108 :: 108 :: r2 => some (.null, r2)
        | _ => none
      else if c = 116 then
        match r with
        | 114 :: 117 :: 101 :: r2 => some (.bool true, r2)
        | _ => none
      else if c = 102 then
        match r with
        | 97 :: 108 :: 115 :: 101 :: r2 => some (.bool false, r2)
        | _ => none
      else if c = 34 then jmap .str (parseStrBody r)
      else if c = 91 then
        match skipWs r with
        | [] => none
        | c2 :: r2 =>
          if c2 = 93 then some (.arr .nil, r2)
          else jmap .arr (parseArrItems fuel (c2 :: r2))
      else if c = 123 then
        match skipWs r with
        | [] => none
        | c2 :: r2 =>
          if c2 = 125 then some (.obj .nil, r2)
          else jmap .obj (parseObjItems fuel (c2 :: r2))
      else
        jmap .int (parseNum (c :: r))
/-- The element list of a non-empty array, after its `[`. -/
def parseArrItems : Nat → List Nat → Option (JArr × List Nat)
  | 0, _ => none
  | fuel + 1, s =>
    match parseVal fuel s with
    | none => none
    | some (x, r) =>
      match skipWs r with
      | [] => none
      | c :: r2 =>
        if c = 44 then
          match parseArrItems fuel r2 with
          | none => none
          | some (xs, r3) => some (.cons x xs, r3)
        else if c = 93 then some (.cons x .nil, r2)
        else none
/-- The member list of a non-empty object, after its opening brace. -/
def parseObjItems : Nat → List Nat → Option (JObj × List Nat)
  | 0, _ => none
  | fuel + 1, s =>
    match skipWs s with
    | [] => none
    | c :: r =>
      if c = 34 then
        match parseStrBody r with
        | none => none
        | some (k, r1) =>
          match skipWs r1 with
          | [] => none
          | c2 :: r2 =>
            if c2 = 58 then
              match parseVal fuel r2 with
              | none => none
              | some (v, r3) =>
                match skipWs r3 with
                | [] => none
                | c3 :: r4 =>
                  if c3 = 44 then
                    match parseObjItems fuel r4 with
                    | none => none
                    | some (kvs, r5) => some (.cons k v kvs, r5)
                  else if c3 = 125 then some (.cons k v .nil, r4)
                  else none
            else none
      else none
end

/-- Is the input all JSON whitespace? -/
def wsOnly (s : List Nat) : Bool := s.all isJsonWs

/-- Python's `json.loads` on a whole string: parse one value and require
only whitespace after it; `none` models the raised `JSONDecodeError`. -/
def jsonLoads (s : List Nat) : Option Json :=
  match parseVal (s.length + 1) s with
  | some (x, r) => if wsOnly r then some x else none
  | none => none

example : jsonLoads (cp " \x7b\"a\": [1, -2, \"x\"]\x7d ") =
    some (.obj (.cons (cp "a")
      (.arr (.cons (.int 1) (.cons (.int (-2)) (.cons (.str (cp "x")) .nil)))) .nil)) := rfl
example : jsonLoads (cp "nul") = none := rfl
example : jsonLoads (dumpsVal (.str [10, 233, 120000])) = some (.str [10, 233, 120000]) := rfl

/-! ## UTF-8 (`str.encode('utf-8')` / `bytes.decode('utf-8')`) -/

/-- The UTF-8 encoding of one Unicode scalar value. -/
def utf8Char (c : Nat) : List Nat :=
  if c < 128 then [c]
  else if c < 2048 then [192 + c / 64, 128 + c % 64]
  else if c < 65536 then [224 + c / 4096, 128 + c / 64 % 64, 128 + c % 64]
  else [240 + c / 262144, 128 + c / 4096 % 64, 128 + c / 64 % 64, 128 + c % 64]

/-- `str.encode('utf-8')`: UTF-8 bytes of a code-point sequence. -/
def utf8Encode : PyStr → List Nat
  | [] => []
  | c :: rest => utf8Char c ++ utf8Encode rest

/-- One code point of a UTF-8 byte sequence: the leading byte
determines the sequence length; continuation bytes are checked for
their `10xxxxxx` shape.  (Unlike CPython this does not reject overlong
forms — a difference invisible on the ASCII payloads this program
produces.)  This is the two-byte case. -/
def utf8Cont2 (b : Nat) : List Nat → Option (Nat × List Nat)
  | b2 :: rest2 =>
    if 128 ≤ b2 ∧ b2 < 192 then some ((b - 192) * 64 + (b2 - 128), rest2) else none
  | _ => none

/-- See `utf8DecodeOne`: the three-byte case. -/
def utf8Cont3 (b : Nat) : List Nat → Option (Nat × List Nat)
  | b2 :: b3 :: rest2 =>
    if (128 ≤ b2 ∧ b2 < 192) ∧ (128 ≤ b3 ∧ b3 < 192) then
      some (((b - 224) * 64 + (b2 - 128)) * 64 + (b3 - 128), rest2)
    else none
  | _ => none

/-- See `utf8DecodeOne`: the four-byte case. -/
def utf8Cont4 (b : Nat) : List Nat → Option (Nat × List Nat)
  | b2 :: b3 :: b4 :: rest2 =>
    if (128 ≤ b2 ∧ b2 < 192) ∧ (128 ≤ b3 ∧ b3 < 192) ∧ (128 ≤ b4 ∧ b4 < 192) then
      some ((((b - 240) * 64 + (b2 - 128)) * 64 + (b3 - 128)) * 64 + (b4 - 128), rest2)
    else none
  | _ => none

/-- One code point of a UTF-8 byte sequence, from the leading byte and
the remaining bytes. -/
def utf8DecodeOne (b : Nat) (rest : List Nat) : Option (Nat × List Nat) :=
  if b < 128 then some (b, rest)
  else if b < 192 then none
  else if b < 224 then utf8Cont2 b rest
  else if b < 240 then utf8Cont3 b rest
  else if b < 248 then utf8Cont4 b rest
  else none

/-- The decode loop over `utf8DecodeOne` (each step consumes at least
one byte, so fuel equal to the input length is always sufficient). -/
def utf8DecodeLoop : Nat → List Nat → Option PyStr
  | _, [] => some []
  | 0, _ :: _ => none
  | fuel + 1, b :: rest =>
    match utf8DecodeOne b rest with
    | none => none
    | some (c, r) =>
      match utf8DecodeLoop fuel r with
      | some s => some (c :: s)
      | none => none

/-- `bytes.decode('utf-8')`: code points of a UTF-8 byte sequence;
`none` models the raised `UnicodeDecodeError`. -/
def utf8Decode (s : List Nat) : Option PyStr := utf8DecodeLoop s.length s

/-! ## IPC framing (`send_packet` / `recv_packet`, bridge.py lines 13-25) -/

/-- `struct.pack('<I', n)`: the four little-endian bytes of a `uint32`. -/
def le32 (n : Nat) : List Nat :=
  [n % 256, n / 256 % 256, n / 65536 % 256, n / 16777216 % 256]

/-- `struct.unpack('<I', ...)`: a `uint32` from four little-endian bytes. -/
def de32 (b0 b1 b2 b3 : Nat) : Nat :=
  b0 + 256 * b1 + 65536 * b2 + 16777216 * b3

/-- `send_packet(s, op, data)`: `json.dumps(data).encode('utf-8')`
prefixed by the `struct.pack('<II', op, len(payload))` header; the
bytes written to the socket.  `none` models `struct.error` when a field
does not fit in a `uint32`. -/
def sendPacket (op : Nat) (data : Json) : Option (List Nat) :=
  let payload := utf8Encode (dumpsVal data)
  if op < 4294967296 ∧ payload.length < 4294967296 then
    some (le32 op ++ (le32 payload.length ++ payload))
  else none

/-- `recv_packet(s)` on a socket whose pending bytes are `s`: read an
8-byte header, read `length` payload bytes, decode UTF-8 and parse
JSON.  `none` models the `return None` paths (short header or any
exception caught by the bare `except`). -/
def recvPacket (s : List Nat) : Option Json :=
  match s with
  | b0 :: b1 :: b2 :: b3 :: b4 :: b5 :: b6 :: b7 :: rest =>
    let _op := de32 b0 b1 b2 b3
    let len := de32 b4 b5 b6 b7
    match utf8Decode (rest.take len) with
    | some chars => jsonLoads chars
    | none => none
  | _ => none

example : (sendPacket 1 (.obj (.cons (cp "v") (.int 1) .nil))).bind recvPacket =
    some (.obj (.cons (cp "v") (.int 1) .nil)) := rfl

/-! ## Activity state (`set_activity`, bridge.py lines 27-56) -/

/-- The arguments of one `set_activity` call (the raw event fields,
before normalization).  Python's dynamically typed arguments are
restricted to the string/number shapes the protocol documents: a
missing field or JSON `null` is `none`. -/
structure Update where
  details : Option PyStr
  state : Option PyStr
  img : Option PyStr
  start : Option Int
  end_ : Option Int
  large_text : Option PyStr
  small_img : Option PyStr
  small_txt : Option PyStr
deriving DecidableEq, Repr

/-- An `Update` with only `details` and `state` set (the shape of the
direct `set_activity(ds, pid, details, state)` calls in the source). -/
def mkUpdate (d s : Option PyStr) : Update := ⟨d, s, none, none, none, none, none, none⟩

/-- Python truthiness of an optional string (`None` and `""` are falsy). -/
def pyTruthyS : Option PyStr → Bool
  | none => false
  | some s => ! s.isEmpty

/-- Python truthiness of an optional integer (`None` and `0` are falsy). -/
def pyTruthyI : Option Int → Bool
  | none => false
  | some n => n != 0

/-- f-string rendering of an optional string (`None` renders as `"None"`). -/
def pyStrOpt : Option PyStr → PyStr
  | none => cp "None"
  | some s => s

/-- f-string rendering of an optional integer (`None` renders as `"None"`). -/
def pyStrOptInt : Option Int → PyStr
  | none => cp "None"
  | some n => cpInt n

/-- `str(x or default)` for an optional string argument. -/
def pyOrS (x : Option PyStr) (d : PyStr) : PyStr :=
  if pyTruthyS x then x.getD d else d

/-- The dedup key (bridge.py line 29): the f-string
`f"{details}-{state}-{img}-{start}-{end}-{large_text}-{small_img}-{small_txt}"`. -/
def dedupKey (u : Update) : PyStr :=
  pyStrOpt u.details ++ [45] ++ pyStrOpt u.state ++ [45] ++ pyStrOpt u.img ++ [45] ++
    pyStrOptInt u.start ++ [45] ++ pyStrOptInt u.end_ ++ [45] ++ pyStrOpt u.large_text ++
    [45] ++ pyStrOpt u.small_img ++ [45] ++ pyStrOpt u.small_txt

/-- `img.startswith('http')`. -/
def startsWithHttp : PyStr → Bool
  | 104 :: 116 :: 116 :: 112 :: _ => true
  | _ => false

/-- The large-image reference (bridge.py line 38):
`img if img and img.startswith('http') else "steqmusic"`. -/
def resolveLargeImage : Option PyStr → PyStr
  | none => cp "steqmusic"
  | some s => if ! s.isEmpty && startsWithHttp s then s else cp "steqmusic"

/-- The normalized activity payload built by `set_activity`
(bridge.py lines 33-50).  `small` holds `(small_image, small_text)`
when a small image key is truthy; `timestamps` holds the
`(start, end)` fields included when at least one is truthy. -/
structure Activity where
  details : PyStr
  state : PyStr
  type : Nat
  large_image : PyStr
  large_text : PyStr
  small : Option (PyStr × PyStr)
  timestamps : Option (Option Int × Option Int)
deriving DecidableEq, Repr

/-- The activity dictionary of `set_activity` (bridge.py lines 33-50). -/
def buildActivity (u : Update) : Activity :=
  { details := pyOrS u.details (cp "Idling")
    state := pyOrS u.state (cp "SteqMusic")
    type := 2
    large_image := resolveLargeImage u.img
    large_text := pyOrS u.large_text (cp "SteqMusic")
    small := if pyTruthyS u.small_img then some (u.small_img.getD [], pyOrS u.small_txt []) else none
    timestamps :=
      if pyTruthyI u.start || pyTruthyI u.end_ then
        some ((if pyTruthyI u.start then u.start else none),
              (if pyTruthyI u.end_ then u.end_ else none))
      else none }

/-- One outbound `SET_ACTIVITY` IPC command (opcode 1):
`{"cmd": "SET_ACTIVITY", "args": {"pid": pid, "activity": ...}, "nonce": ...}`.
`activity = none` is the JSON `null` that clears presence; the nonce is
a fresh UUID and is not modelled. -/
structure Packet where
  pid : Nat
  activity : Option Activity
deriving DecidableEq, Repr

/-- `set_activity` (bridge.py lines 27-56) as a transition on the
global `LAST_STATUS`: returns the new `LAST_STATUS` and the packet
written to the IPC socket, if any. -/
def setActivity (last : PyStr) (pid : Nat) (u : Update) : PyStr × Option Packet :=
  let current := dedupKey u
  if current = last then (last, none)
  else (current, some ⟨pid, some (buildActivity u)⟩)

/-- A sequence of `set_activity` calls threading `LAST_STATUS`,
returning every packet written. -/
def processUpdates (pid : Nat) : PyStr → List Update → List Packet
  | _, [] => []
  | last, u :: us =>
    match setActivity last pid u with
    | (l2, none) => processUpdates pid l2 us
    | (l2, some p) => p :: processUpdates pid l2 us

/-- The number of maximal runs of consecutive identical values in a
list (zero for the empty list). -/
def numRuns {α : Type} [DecidableEq α] : List α → Nat
  | [] => 0
  | [_] => 1
  | a :: b :: t => (if a = b then 0 else 1) + numRuns (b :: t)

/-- How many of the keys `ks`, deduplicated against the running
last-sent key starting from `last`, cause a send. -/
def sendCount : PyStr → List PyStr → Nat
  | _, [] => 0
  | last, k :: ks => if k = last then sendCount last ks else 1 + sendCount k ks

/-! ## WebSocket frame length decoding (bridge.py lines 118-126) -/

/-- The length decoding of the event loop: from the second header byte
(`head[1] & 127`) and the following bytes, the payload length and the
unconsumed input — `struct.unpack(">H", ...)` after marker 126,
`struct.unpack(">Q", ...)` after marker 127, the 7-bit field itself
otherwise.  `none` models a short read (which raises and is caught). -/
def wsDecodeLen (b1 : Nat) (rest : List Nat) : Option (Nat × List Nat) :=
  let l := b1 % 128
  if l = 126 then
    match rest with
    | e1 :: e2 :: r => some (e1 * 256 + e2, r)
    | _ => none
  else if l = 127 then
    match rest with
    | e1 :: e2 :: e3 :: e4 :: e5 :: e6 :: e7 :: e8 :: r =>
      some (((((((e1 * 256 + e2) * 256 + e3) * 256 + e4) * 256 + e5) * 256 + e6) * 256 + e7)
        * 256 + e8, r)
    | _ => none
  else some (l, rest)

/-- Modelled from the spec: the peer's length encoding for an unmasked
server frame (`WsFrame.lengthField`, 7-bit / 16-bit / 64-bit
big-endian encodings); the server side is not part of this repository. -/
def wsEncodeLen (n : Nat) : List Nat :=
  if n < 126 then [n]
  else if n < 65536 then [126, n / 256 % 256, n % 256]
  else [127, n / 72057594037927936 % 256, n / 281474976710656 % 256, n / 1099511627776 % 256,
    n / 4294967296 % 256, n / 16777216 % 256, n / 65536 % 256, n / 256 % 256, n % 256]

/-- One complete inbound frame (two header bytes, extended length
bytes, payload), decoded as the event loop does (bridge.py lines
118-127): returns the payload bytes.  `none` models any short read
(`struct` error or timeout inside the payload loop), caught by the
loop's bare `except`. -/
def decodeWsFrame (bs : List Nat) : Option (List Nat) :=
  match bs with
  | _b0 :: b1 :: rest =>
    match wsDecodeLen b1 rest with
    | some (len, r) => if len ≤ r.length then some (r.take len) else none
    | none => none
  | _ => none

/-- The JSON event envelope of one inbound frame:
`json.loads(data.decode('utf-8'))` after `decodeWsFrame`. -/
def frameMsg (bs : List Nat) : Option Json :=
  match decodeWsFrame bs with
  | some payload =>
    match utf8Decode payload with
    | some chars => jsonLoads chars
    | none => none
  | none => none

/-! ## Event dispatch and loop (bridge.py lines 111-148) -/

/-- Lookup in a JSON object's member list; with duplicate keys the last
binding wins, as in a Python dict built by `json.loads`. -/
def jObjFind : JObj → PyStr → Option Json
  | .nil, _ => none
  | .cons k v tl, key =>
    match jObjFind tl key with
    | some v2 => some v2
    | none => if k = key then some v else none

/-- Python's `msg[key]` on a parsed JSON value: `none` models the
`KeyError`/`TypeError` raised when the key is absent or the value is
not a dict. -/
def jLookup : Json → PyStr → Option Json
  | .obj kvs, key => jObjFind kvs key
  | _, _ => none

/-- `d.get(key)` restricted to string-valued fields: absent keys and
JSON `null` give `None`; non-string shapes are outside the model. -/
def jGetStr (d : Json) (key : PyStr) : Option PyStr :=
  match jLookup d key with
  | some (.str s) => some s
  | _ => none

/-- `d.get(key)` restricted to integer-valued fields. -/
def jGetInt (d : Json) (key : PyStr) : Option Int :=
  match jLookup d key with
  | some (.int n) => some n
  | _ => none

/-- The arguments of the `set_activity(ds, ppid, "Idling", "SteqMusic")`
calls (startup default, bridge.py line 81, and `discord:clear`,
line 133). -/
def idleUpdate : Update := mkUpdate (some (cp "Idling")) (some (cp "SteqMusic"))

/-- The raw `Update` read off a `discord:update` event's `data` dict
(bridge.py line 131). -/
def updateOfData (d : Json) : Update :=
  ⟨jGetStr d (cp "details"), jGetStr d (cp "state"), jGetStr d (cp "largeImageKey"),
    jGetInt d (cp "startTimestamp"), jGetInt d (cp "endTimestamp"),
    jGetStr d (cp "largeImageText"), jGetStr d (cp "smallImageKey"),
    jGetStr d (cp "smallImageText")⟩

/-- The `discord:update` branch (bridge.py lines 129-131): reads
`msg['data']` (already looked up, `none` when absent) and calls
`set_activity` on its fields; any non-dict `data` raises and is caught
by the loop's bare `except` (`none`). -/
def handleData (last : PyStr) (pid : Nat) : Option Json → Option (PyStr × Option Packet × Bool)
  | some (.obj kvs) =>
    some ((setActivity last pid (updateOfData (.obj kvs))).1,
      (setActivity last pid (updateOfData (.obj kvs))).2, false)
  | _ => none

/-- The event dispatch (bridge.py lines 129-135) once `msg['event']`
has been read: compares it against the three known event names. -/
def handleMsgCore (last : PyStr) (pid : Nat) (msg ev : Json) :
    Option (PyStr × Option Packet × Bool) :=
  if ev = .str (cp "discord:update") then handleData last pid (jLookup msg (cp "data"))
  else if ev = .str (cp "discord:clear") then
    some ((setActivity last pid idleUpdate).1, (setActivity last pid idleUpdate).2, false)
  else if ev = .str (cp "windowClose") then some (last, none, true)
  else some (last, none, false)

/-- The event dispatch of the loop body (bridge.py lines 129-135),
given the current `LAST_STATUS` and the decoded message: the new
`LAST_STATUS`, the packet written (if any), and whether the loop
breaks.  `none` models an exception (`msg['event']` missing or `msg`
not a dict), caught by the loop's bare `except`. -/
def handleMsg (last : PyStr) (pid : Nat) (msg : Json) : Option (PyStr × Option Packet × Bool) :=
  match jLookup msg (cp "event") with
  | none => none
  | some ev => handleMsgCore last pid msg ev

/-- What one loop iteration observes from the outside world:
the watchdog's `os.kill(ppid, 0)` raising (`parentDead`), a read
timeout, an empty read (`closed`, peer shut the socket), any other
socket error, or one complete frame's bytes. -/
inductive LoopInput where
  | parentDead : LoopInput
  | timeout : LoopInput
  | closed : LoopInput
  | recvError : LoopInput
  | frame (bs : List Nat) : LoopInput
deriving DecidableEq, Repr

/-- One iteration of the event loop (bridge.py lines 111-137): the new
`LAST_STATUS`, the packet written (if any), and whether the loop
breaks.  Timeouts and all other in-loop exceptions `continue`. -/
def loopStep (last : PyStr) (pid : Nat) : LoopInput → PyStr × Option Packet × Bool
  | .parentDead => (last, none, true)
  | .timeout => (last, none, false)
  | .closed => (last, none, true)
  | .recvError => (last, none, false)
  | .frame bs =>
    match frameMsg bs with
    | none => (last, none, false)
    | some msg =>
      match handleMsg last pid msg with
      | none => (last, none, false)
      | some r => r

/-- An observable action on the IPC socket. -/
inductive IpcAction where
  | send (p : Packet) : IpcAction
  | closeIpc : IpcAction
deriving DecidableEq, Repr

/-- The cleanup block (bridge.py lines 139-148): the clearing
`SET_ACTIVITY` with `"activity": None`, then `ds.close()`. -/
def cleanupActions (pid : Nat) : List IpcAction :=
  [.send ⟨pid, none⟩, .closeIpc]

/-- The event loop followed by cleanup, over a finite sequence of
observed inputs: every IPC action performed.  If the inputs end with
the loop still active, no cleanup has happened yet. -/
def runBridge (pid : Nat) : PyStr → List LoopInput → List IpcAction
  | _, [] => []
  | last, i :: rest =>
    match loopStep last pid i with
    | (l2, p, brk) =>
      (match p with
        | some pkt => [IpcAction.send pkt]
        | none => []) ++
      (if brk then cleanupActions pid else runBridge pid l2 rest)

/-- Does the loop exit (reach a `break`) on this input sequence? -/
def loopExits (pid : Nat) : PyStr → List LoopInput → Bool
  | _, [] => false
  | last, i :: rest =>
    match loopStep last pid i with
    | (l2, _, brk) => brk || loopExits pid l2 rest

/-! ## Startup (bridge.py lines 58-88) -/

/-- The environment main() probes during startup: whether one of the
`discord-ipc-0..9` paths exists and whether connecting to it succeeds. -/
structure EnvModel where
  ipcPathFound : Bool
  ipcConnectOk : Bool
deriving DecidableEq, Repr

/-- An observable connection-phase action of `main()`. -/
inductive StartAction where
  | connectIpc : StartAction
  | sendIpc (op : Nat) : StartAction
  | connectWs : StartAction
deriving DecidableEq, Repr

/-- The startup phase of `main()` (bridge.py lines 58-88), up to the
WebSocket connection attempt: the externally observable actions, given
the line read from stdin (`[]` for EOF) and the environment.  A falsy
or unparsable config line returns before anything else happens; the
opcode-0 send is the handshake, the opcode-1 send the initial idle
`set_activity`. -/
def mainStartup (stdinLine : PyStr) (env : EnvModel) : List StartAction :=
  if stdinLine.isEmpty then []
  else
    match jsonLoads stdinLine with
    | none => []
    | some _config =>
      if ! env.ipcPathFound then []
      else if ! env.ipcConnectOk then [.connectIpc]
      else [.connectIpc, .sendIpc 0, .sendIpc 1, .connectWs]

/-! ## Auxiliary notions used by the theorems below -/

/-- Either nothing or a JSON value terminator (`,`, `]`, the closing
brace) follows: the only contexts in which `dumpsVal` output is parsed
back. -/
def numSep : List Nat → Bool
  | [] => true
  | c :: _ => c = 44 || c = 93 || c = 125

/-- The numeric value of a digit-character run, from an accumulator. -/
def digitsVal (acc : Nat) : List Nat → Nat
  | [] => acc
  | c :: t => digitsVal (acc * 10 + (c - 48)) t

/-- Concrete inputs used in counterexamples and witnesses. -/
def updEmptyDetails : Update := mkUpdate (some []) (some (cp "x"))

/-- See `updEmptyDetails`. -/
def updNoneDetails : Update := mkUpdate none (some (cp "x"))

/-- A `discord:clear` event envelope. -/
def clearEventMsg : Json := .obj (.cons (cp "event") (.str (cp "discord:clear")) .nil)

/-- A frame whose one-byte payload `x` is not valid JSON. -/
def badJsonFrame : List Nat := [129, 1, 120]

/-- A sample JSON payload exercising every constructor. -/
def jw : Json :=
  .obj (.cons (cp "cmd") (.str (cp "SET_ACTIVITY"))
    (.cons (cp "args")
      (.arr (.cons (.int (-5)) (.cons .null (.cons (.bool true) (.cons (.str [10, 233, 120000]) .nil)))))
      .nil))

/-! # Theorems -/

/-! ## C1 — image field policy (bridge.py line 38) -/

/-- C1 counterexample: a present non-URL literal key is NOT used
unchanged; the code replaces it with the fixed fallback key. -/
theorem c1_counterexample :
    resolveLargeImage (some (cp "customKey")) = cp "steqmusic" ∧
    resolveLargeImage (some (cp "customKey")) ≠ cp "customKey" := by
  decide

/-- C1 (amended): when the image argument is absent the resolved
large-image reference is the fixed fallback key `"steqmusic"`; when it
starts with `"http"` it is used unchanged; any other present value
(including a non-URL literal key) also resolves to the fixed fallback
key, not to the literal key. -/
theorem c1_image_policy_amended :
    resolveLargeImage none = cp "steqmusic" ∧
    (∀ s : PyStr, startsWithHttp s = true → resolveLargeImage (some s) = s) ∧
    (∀ s : PyStr, startsWithHttp s = false → resolveLargeImage (some s) = cp "steqmusic") := by
  refine ⟨rfl, ?_, ?_⟩
  · intro s hs
    match s, hs with
    | 104 :: 116 :: 116 :: 112 :: r, _ =>
      simp [resolveLargeImage, startsWithHttp]
  · intro s hs
    simp [resolveLargeImage, hs]

/-- C1 witness: the amended policy at the three concrete inputs of the
claim. -/
theorem c1_witness :
    resolveLargeImage none = cp "steqmusic" ∧
    resolveLargeImage (some (cp "http://cdn/x.png")) = cp "http://cdn/x.png" ∧
    resolveLargeImage (some (cp "plainKey")) = cp "steqmusic" :=
  ⟨c1_image_policy_amended.1, c1_image_policy_amended.2.1 _ (by decide),
    c1_image_policy_amended.2.2 _ (by decide)⟩

/-! ## C9 — dedup key derivation (bridge.py line 29) -/

/-- C9 counterexample: the dedup key is not injective on descriptor
field tuples — two different updates whose fields contain the `-`
separator produce the same key. -/
theorem c9_counterexample :
    dedupKey (mkUpdate (some (cp "a-b")) (some (cp "c"))) =
      dedupKey (mkUpdate (some (cp "a")) (some (cp "b-c"))) ∧
    mkUpdate (some (cp "a-b")) (some (cp "c")) ≠ mkUpdate (some (cp "a")) (some (cp "b-c")) := by
  decide

/-- C9 (amended): the dedup key is derived deterministically from every
field by order-sensitive concatenation, and key equality makes the
dedup logic treat two updates as identical (the second is suppressed) —
but the key computation is not injective on field tuples. -/
theorem c9_dedup_key_amended (pid : Nat) (u v : Update) (h : dedupKey v = dedupKey u) :
    setActivity (dedupKey u) pid v = (dedupKey u, none) := by
  simp [setActivity, h]

/-- C9 witness: a key-equal update is suppressed by dedup. -/
theorem c9_witness :
    setActivity (dedupKey (mkUpdate none none)) 4 (mkUpdate none none) =
      (dedupKey (mkUpdate none none), none) :=
  c9_dedup_key_amended 4 (mkUpdate none none) (mkUpdate none none) rfl

/-! ## C5 — WebSocket length decoding (bridge.py lines 118-126) -/

/-- C5: payload lengths 10, 200 and 70000 are decoded through the
7-bit field, the marker-126 16-bit big-endian extension and the
marker-127 64-bit big-endian extension respectively, each yielding the
exact length with the payload bytes still unconsumed. -/
theorem c5_ws_length_decoding (p : List Nat) :
    (wsEncodeLen 10 = [10] ∧ wsDecodeLen 10 p = some (10, p)) ∧
    (wsEncodeLen 200 = [126, 0, 200] ∧ wsDecodeLen 126 (0 :: 200 :: p) = some (200, p)) ∧
    (wsEncodeLen 70000 = [127, 0, 0, 0, 0, 0, 1, 17, 112] ∧
      wsDecodeLen 127 (0 :: 0 :: 0 :: 0 :: 0 :: 1 :: 17 :: 112 :: p) = some (70000, p)) := by
  refine ⟨⟨by decide, ?_⟩, ⟨by decide, ?_⟩, ⟨by decide, ?_⟩⟩ <;> norm_num [wsDecodeLen]

/-! ## C8 — startup on bad configuration (bridge.py lines 58-74) -/

/-- C8: when the startup line is absent/empty or not well-formed JSON,
`main` returns before anything else: no IPC or WebSocket connection is
attempted and no packet is sent. -/
theorem c8_bad_config_no_connection (line : PyStr) (env : EnvModel)
    (h : line = [] ∨ jsonLoads line = none) : mainStartup line env = [] := by
  rcases h with h | h
  · subst h; rfl
  · by_cases he : line.isEmpty
    · simp [mainStartup, he]
    · simp [mainStartup, he, h]

/-- C8 witness: a malformed config line produces no actions. -/
theorem c8_witness : mainStartup (cp "oops") ⟨true, true⟩ = [] :=
  c8_bad_config_no_connection _ _ (Or.inr (by decide))

/-! ## C2 — dedup per run (bridge.py lines 27-31) -/

/-- The dedup key is never the startup value of `LAST_STATUS` (the
empty string): it always contains seven separators. -/
theorem dedupKey_ne_nil (u : Update) : dedupKey u ≠ [] := by
  intro h
  have := congrArg List.length h
  simp [dedupKey] at this

/-- The packets emitted by a run of `set_activity` calls are counted by
`sendCount` over the dedup keys. -/
theorem processUpdates_length (pid : Nat) :
    ∀ (us : List Update) (last : PyStr),
      (processUpdates pid last us).length = sendCount last (us.map dedupKey) := by
  intro us
  induction us with
  | nil => intro last; rfl
  | cons u t ih =>
    intro last
    by_cases h : dedupKey u = last
    · simp [processUpdates, setActivity, h, sendCount, ih]
    · simp [processUpdates, setActivity, h, sendCount, ih]
      omega

/-- Deduplicating from a key different from the head counts one send
per maximal run of identical keys. -/
theorem sendCount_eq_numRuns : ∀ (t : List PyStr) (k : PyStr),
    1 + sendCount k t = numRuns (k :: t) := by
  intro t
  induction t with
  | nil => intro k; rfl
  | cons b t2 ih =>
    intro k
    by_cases h : b = k
    · subst h
      simp [sendCount, numRuns, ih b]
    · have hbk : ¬ (k = b) := fun hk => h hk.symm
      simp [sendCount, numRuns, h, hbk, ih b]

/-- C2 (amended): starting from the initial empty `LAST_STATUS`,
exactly one `SET_ACTIVITY` packet is written per maximal run of
identical dedup keys (the f-string over the raw, pre-normalization
fields). -/
theorem c2_dedup_runs_amended (pid : Nat) (us : List Update) :
    (processUpdates pid [] us).length = numRuns (us.map dedupKey) := by
  cases us with
  | nil => rfl
  | cons u t =>
    have h1 := processUpdates_length pid (u :: t) []
    rw [List.map_cons] at h1 ⊢
    rw [h1]
    have hne : ¬ (dedupKey u = ([] : PyStr)) := dedupKey_ne_nil u
    rw [show sendCount [] (dedupKey u :: t.map dedupKey)
        = 1 + sendCount (dedupKey u) (t.map dedupKey) by simp [sendCount, hne]]
    exact sendCount_eq_numRuns (t.map dedupKey) (dedupKey u)

/-- C2 counterexample: two consecutive events with identical normalized
field values (empty vs absent `details`, both normalizing to
`"Idling"`) form one maximal run of identical normalized values, yet
the code writes two packets, because dedup keys are computed over the
raw fields. -/
theorem c2_counterexample :
    buildActivity updEmptyDetails = buildActivity updNoneDetails ∧
    numRuns ([updEmptyDetails, updNoneDetails].map buildActivity) = 1 ∧
    (processUpdates 0 [] [updEmptyDetails, updNoneDetails]).length = 2 := by
  decide

/-! ## C10 — invariants of every non-null activity payload (lines 33-45) -/

/-- `str(x or default)` is never empty when the default is not. -/
theorem pyOrS_ne_nil (x : Option PyStr) (d : PyStr) (hd : d ≠ []) : pyOrS x d ≠ [] := by
  cases x with
  | none => simpa [pyOrS, pyTruthyS] using hd
  | some s =>
    by_cases hs : s.isEmpty
    · simpa [pyOrS, pyTruthyS, hs] using hd
    · have hsn : s ≠ [] := by simpa [List.isEmpty_iff] using hs
      simpa [pyOrS, pyTruthyS, hs] using hsn

/-- `str(x or default)` is the default when `x` is falsy. -/
theorem pyOrS_default (x : Option PyStr) (d : PyStr) (hx : pyTruthyS x = false) :
    pyOrS x d = d := by
  simp [pyOrS, hx]

/-- C10: every packet that passes dedup carries the normalized
activity: `type = 2`, non-empty `details`/`state` (defaulted to
`"Idling"`/`"SteqMusic"` when the raw field is falsy), and assets with
the resolved `large_image` and a non-empty `large_text` (defaulted to
`"SteqMusic"`). -/
theorem c10_activity_invariants (last : PyStr) (pid : Nat) (u : Update) (l2 : PyStr) (p : Packet)
    (h : setActivity last pid u = (l2, some p)) :
    p.activity = some (buildActivity u) ∧
    (buildActivity u).type = 2 ∧
    (buildActivity u).details ≠ [] ∧
    (buildActivity u).state ≠ [] ∧
    (buildActivity u).large_text ≠ [] ∧
    (pyTruthyS u.details = false → (buildActivity u).details = cp "Idling") ∧
    (pyTruthyS u.state = false → (buildActivity u).state = cp "SteqMusic") ∧
    (pyTruthyS u.large_text = false → (buildActivity u).large_text = cp "SteqMusic") ∧
    (buildActivity u).large_image = resolveLargeImage u.img := by
  refine ⟨?_, rfl, ?_, ?_, ?_, ?_, ?_, ?_, rfl⟩
  · by_cases hk : dedupKey u = last
    · simp [setActivity, hk] at h
    · simp [setActivity, hk] at h
      rw [← h.2]
  · exact pyOrS_ne_nil _ _ (by decide)
  · exact pyOrS_ne_nil _ _ (by decide)
  · exact pyOrS_ne_nil _ _ (by decide)
  · intro hx; exact pyOrS_default _ _ hx
  · intro hx; exact pyOrS_default _ _ hx
  · intro hx; exact pyOrS_default _ _ hx

/-- C10 witness: the invariants at a concrete accepted update. -/
theorem c10_witness :
    (⟨9, some (buildActivity (mkUpdate none none))⟩ : Packet).activity
        = some (buildActivity (mkUpdate none none)) ∧
    (buildActivity (mkUpdate none none)).type = 2 ∧
    (buildActivity (mkUpdate none none)).details ≠ [] ∧
    (buildActivity (mkUpdate none none)).state ≠ [] ∧
    (buildActivity (mkUpdate none none)).large_text ≠ [] ∧
    (pyTruthyS (mkUpdate none none).details = false →
      (buildActivity (mkUpdate none none)).details = cp "Idling") ∧
    (pyTruthyS (mkUpdate none none).state = false →
      (buildActivity (mkUpdate none none)).state = cp "SteqMusic") ∧
    (pyTruthyS (mkUpdate none none).large_text = false →
      (buildActivity (mkUpdate none none)).large_text = cp "SteqMusic") ∧
    (buildActivity (mkUpdate none none)).large_image = resolveLargeImage (mkUpdate none none).img :=
  c10_activity_invariants [] 9 (mkUpdate none none) (dedupKey (mkUpdate none none))
    ⟨9, some (buildActivity (mkUpdate none none))⟩ (by decide)

/-! ## C3 — the `discord:clear` event (bridge.py lines 132-133) -/

/-- C3 counterexample: on `discord:clear` the code calls
`set_activity(ds, ppid, "Idling", "SteqMusic")`, which goes through
dedup — when the idle presence was already the last sent state, no
packet at all is written; and when a packet is written its activity is
the non-null idle payload, not JSON `null`. -/
theorem c3_counterexample :
    handleMsg (dedupKey idleUpdate) 0 clearEventMsg = some (dedupKey idleUpdate, none, false) ∧
    handleMsg [] 0 clearEventMsg =
      some (dedupKey idleUpdate, some ⟨0, some (buildActivity idleUpdate)⟩, false) := by
  decide

/-- C3 (amended): a `discord:clear` event triggers
`set_activity(ds, ppid, "Idling", "SteqMusic")` — a dedup-checked,
non-null idle presence update — not an unconditional null-activity
send (the unconditional `SET_ACTIVITY(null)` occurs only in cleanup). -/
theorem c3_clear_amended (last : PyStr) (pid : Nat) :
    handleMsg last pid clearEventMsg =
      some ((setActivity last pid idleUpdate).1, (setActivity last pid idleUpdate).2, false) ∧
    (∀ pkt : Packet, (setActivity last pid idleUpdate).2 = some pkt →
      pkt.activity = some (buildActivity idleUpdate)) := by
  constructor
  · rfl
  · intro pkt hp
    by_cases hk : dedupKey idleUpdate = last
    · simp [setActivity, hk] at hp
    · simp [setActivity, hk] at hp
      rw [← hp]

/-- C3 witness: the amended dispatch at a concrete state. -/
theorem c3_witness :
    handleMsg [] 5 clearEventMsg =
      some ((setActivity [] 5 idleUpdate).1, (setActivity [] 5 idleUpdate).2, false) ∧
    (⟨5, some (buildActivity idleUpdate)⟩ : Packet).activity = some (buildActivity idleUpdate) :=
  ⟨(c3_clear_amended [] 5).1, (c3_clear_amended [] 5).2 _ (by decide)⟩

/-! ## C7 — clearing write before close on every exit (lines 111-148) -/

/-- C7: whenever the event loop exits its active phase (watchdog-
detected parent death, peer close, or a `windowClose` event), the IPC
trace ends with the clearing `SET_ACTIVITY` (null activity) followed by
the socket close, with no IPC action after them. -/
theorem c7_cleanup_last_actions (pid : Nat) :
    ∀ (ins : List LoopInput) (last : PyStr),
      loopExits pid last ins = true →
      ∃ pre : List IpcAction,
        runBridge pid last ins = pre ++ [IpcAction.send ⟨pid, none⟩, IpcAction.closeIpc] := by
  intro ins
  induction ins with
  | nil => intro last h; simp [loopExits] at h
  | cons i rest ih =>
    intro last h
    rcases hs : loopStep last pid i with ⟨l2, p, brk⟩
    rw [loopExits, hs] at h
    simp only [Bool.or_eq_true] at h
    cases brk with
    | true =>
      cases p with
      | some pkt =>
        refine ⟨[IpcAction.send pkt], ?_⟩
        simp [runBridge, hs, cleanupActions]
      | none =>
        refine ⟨[], ?_⟩
        simp [runBridge, hs, cleanupActions]
    | false =>
      have h2 : loopExits pid l2 rest = true := by
        rcases h with h | h
        · exact absurd h (by decide)
        · exact h
      obtain ⟨pre, hp⟩ := ih l2 h2
      cases p with
      | some pkt =>
        refine ⟨IpcAction.send pkt :: pre, ?_⟩
        simp [runBridge, hs, hp]
      | none =>
        refine ⟨pre, ?_⟩
        simp [runBridge, hs, hp]

/-- C7 witness: parent death on the next iteration yields exactly the
clearing send followed by the close. -/
theorem c7_witness :
    loopExits 7 [] [LoopInput.parentDead] = true ∧
    ∃ pre : List IpcAction,
      runBridge 7 [] [LoopInput.parentDead] =
        pre ++ [IpcAction.send ⟨7, none⟩, IpcAction.closeIpc] :=
  ⟨by decide, c7_cleanup_last_actions 7 [LoopInput.parentDead] [] (by decide)⟩

/-! ## C6 — what exits the loop and what merely continues (lines 111-148) -/

/-- C6 counterexample: a frame whose payload is not valid JSON (a
decode error) does not route to cleanup — the loop swallows it and
continues (no `break`, no packet, no cleanup action). -/
theorem c6_counterexample :
    loopStep [] 0 (.frame badJsonFrame) = ([], none, false) ∧
    runBridge 0 [] [.frame badJsonFrame] = [] ∧
    loopStep [] 0 .recvError = ([], none, false) := by
  decide

/-- A message whose `event` field is the string `windowClose` makes the
dispatch break. -/
theorem handleMsg_windowClose (last : PyStr) (pid : Nat) (msg : Json)
    (h : jLookup msg (cp "event") = some (.str (cp "windowClose"))) :
    handleMsg last pid msg = some (last, none, true) := by
  unfold handleMsg
  rw [h]
  show handleMsgCore last pid msg (.str (cp "windowClose")) = some (last, none, true)
  unfold handleMsgCore
  rw [if_neg (by decide), if_neg (by decide), if_pos rfl]

/-- The dispatch breaks exactly on a `windowClose` event. -/
theorem handleMsgCore_brk (last : PyStr) (pid : Nat) (msg ev : Json)
    (r : PyStr × Option Packet × Bool) (h : handleMsgCore last pid msg ev = some r) :
    (r.2.2 = true ↔ ev = Json.str (cp "windowClose")) := by
  unfold handleMsgCore at h
  by_cases h1 : ev = Json.str (cp "discord:update")
  · rw [if_pos h1] at h
    rcases hd : jLookup msg (cp "data") with _ | d
    · rw [hd] at h; simp [handleData] at h
    · rw [hd] at h
      cases d with
      | obj kvs =>
        rw [handleData] at h
        injection h with h
        subst h
        constructor
        · intro hfalse; exact absurd hfalse Bool.false_ne_true
        · intro hev; rw [hev] at h1; exact absurd h1 (by decide)
      | null => simp [handleData] at h
      | bool b => simp [handleData] at h
      | int n => simp [handleData] at h
      | str s => simp [handleData] at h
      | arr xs => simp [handleData] at h
  · rw [if_neg h1] at h
    by_cases h2 : ev = Json.str (cp "discord:clear")
    · rw [if_pos h2] at h
      injection h with h
      subst h
      constructor
      · intro hfalse; exact absurd hfalse Bool.false_ne_true
      · intro hev; rw [hev] at h2; exact absurd h2 (by decide)
    · rw [if_neg h2] at h
      by_cases h3 : ev = Json.str (cp "windowClose")
      · rw [if_pos h3] at h
        injection h with h
        subst h
        constructor
        · intro _; exact h3
        · intro _; rfl
      · rw [if_neg h3] at h
        injection h with h
        subst h
        constructor
        · intro hfalse; exact absurd hfalse Bool.false_ne_true
        · intro hev; exact absurd hev h3

/-- The dispatch breaks exactly on a `windowClose` event (in terms of
`handleMsg`). -/
theorem handleMsg_brk (last : PyStr) (pid : Nat) (msg : Json)
    (r : PyStr × Option Packet × Bool) (h : handleMsg last pid msg = some r) :
    (r.2.2 = true ↔ jLookup msg (cp "event") = some (.str (cp "windowClose"))) := by
  unfold handleMsg at h
  rcases he : jLookup msg (cp "event") with _ | ev
  · rw [he] at h; simp at h
  · rw [he] at h
    simp only [] at h
    rw [handleMsgCore_brk last pid msg ev r h]
    constructor
    · intro hev; rw [hev]
    · intro hev; injection hev

/-- C6 (amended): the loop exits (reaching cleanup) exactly on
watchdog-detected parent death, an empty read (peer closed), or a
decoded `windowClose` event; a read timeout, any other receive error,
and any frame that fails to decode (malformed frame or JSON, missing
fields) do NOT exit — the bare `except: continue` swallows them and the
loop keeps iterating. -/
theorem c6_loop_exit_amended (last : PyStr) (pid : Nat) :
    (∀ i : LoopInput, ((loopStep last pid i).2.2 = true ↔
      (i = .parentDead ∨ i = .closed ∨
        ∃ bs msg, i = .frame bs ∧ frameMsg bs = some msg ∧
          jLookup msg (cp "event") = some (.str (cp "windowClose"))))) ∧
    loopStep last pid .timeout = (last, none, false) ∧
    loopStep last pid .recvError = (last, none, false) ∧
    (∀ bs, frameMsg bs = none → loopStep last pid (.frame bs) = (last, none, false)) := by
  refine ⟨?_, rfl, rfl, ?_⟩
  · intro i
    cases i with
    | parentDead => simp [loopStep]
    | timeout => simp [loopStep]
    | closed => simp [loopStep]
    | recvError => simp [loopStep]
    | frame bs =>
      rcases hm : frameMsg bs with _ | msg
      · simp only [loopStep, hm]
        constructor
        · intro hfalse; exact absurd hfalse (by decide)
        · rintro (h | h | ⟨bs2, msg2, hb, hm2, hev⟩)
          · exact absurd h (by simp)
          · exact absurd h (by simp)
          · injection hb with hb
            subst hb
            rw [hm] at hm2
            exact absurd hm2 (by simp)
      · rcases hh : handleMsg last pid msg with _ | r
        · simp only [loopStep, hm, hh]
          constructor
          · intro hfalse; exact absurd hfalse (by decide)
          · rintro (h | h | ⟨bs2, msg2, hb, hm2, hev⟩)
            · exact absurd h (by simp)
            · exact absurd h (by simp)
            · injection hb with hb
              subst hb
              rw [hm] at hm2
              injection hm2 with hm2
              subst hm2
              rw [handleMsg_windowClose last pid msg hev] at hh
              exact absurd hh (by simp)
        · simp only [loopStep, hm, hh]
          rw [handleMsg_brk last pid msg r hh]
          constructor
          · intro hev
            exact Or.inr (Or.inr ⟨bs, msg, rfl, hm, hev⟩)
          · rintro (h | h | ⟨bs2, msg2, hb, hm2, hev⟩)
            · exact absurd h (by simp)
            · exact absurd h (by simp)
            · injection hb with hb
              subst hb
              rw [hm] at hm2
              injection hm2 with hm2
              subst hm2
              exact hev
  · intro bs hmn
    simp [loopStep, hmn]

/-- C6 witness: the amended characterization at concrete inputs. -/
theorem c6_witness :
    loopStep (cp "k") 3 .timeout = (cp "k", none, false) ∧
    loopStep (cp "k") 3 (.frame [130, 1, 121]) = (cp "k", none, false) ∧
    ((loopStep (cp "k") 3 .parentDead).2.2 = true) :=
  ⟨(c6_loop_exit_amended (cp "k") 3).2.1,
    (c6_loop_exit_amended (cp "k") 3).2.2.2 [130, 1, 121] (by decide),
    ((c6_loop_exit_amended (cp "k") 3).1 .parentDead).mpr (Or.inl rfl)⟩

/-! ## C4 — IPC frame round trip (bridge.py lines 13-25)

The round trip factors as: `dumpsVal` output is pure ASCII (so
`encode('utf-8')`/`decode('utf-8')` are the identity on it), the
framing recovers exactly the payload bytes, and `jsonLoads` inverts
`dumpsVal`.  The parser-inversion lemmas below are proved by mutual
structural induction over `Json`. -/

/-- `hexVal` inverts `hexDigit` on digit values. -/
theorem hexVal_hexDigit (d : Nat) (h : d < 16) : hexVal (hexDigit d) = some d := by
  unfold hexDigit hexVal
  by_cases h10 : d < 10
  · rw [if_pos h10, if_pos (by omega)]
    congr 1
    omega
  · rw [if_neg h10, if_neg (by omega), if_pos (by omega)]
    congr 1
    omega

/-- `hex4Val` inverts `hex4`'s digits on values below `0x10000`. -/
theorem hex4Val_hex4 (v : Nat) (h : v < 65536) :
    hex4Val (hexDigit (v / 4096 % 16)) (hexDigit (v / 256 % 16))
      (hexDigit (v / 16 % 16)) (hexDigit (v % 16)) = some v := by
  unfold hex4Val
  rw [hexVal_hexDigit _ (Nat.mod_lt _ (by norm_num)),
    hexVal_hexDigit _ (Nat.mod_lt _ (by norm_num)),
    hexVal_hexDigit _ (Nat.mod_lt _ (by norm_num)),
    hexVal_hexDigit _ (Nat.mod_lt _ (by norm_num))]
  show some (v / 4096 % 16 * 4096 + v / 256 % 16 * 256 + v / 16 % 16 * 16 + v % 16) = some v
  congr 1
  omega

/-- `unescapeOne` on a lone `\uXXXX` escape whose value is not a high
surrogate. -/
theorem unescapeOne_u_single (h1 h2 h3 h4 : Nat) (t : List Nat) (v : Nat)
    (hv : hex4Val h1 h2 h3 h4 = some v) (hvr : ¬ (55296 ≤ v ∧ v ≤ 56319)) :
    unescapeOne (92 :: 117 :: h1 :: h2 :: h3 :: h4 :: t) = some (some v, t) := by
  simp [unescapeOne, hv, hvr]

/-- `unescapeOne` on a surrogate-pair escape: the two values are
combined into one astral code point. -/
theorem unescapeOne_u_pair (h1 h2 h3 h4 g1 g2 g3 g4 : Nat) (t : List Nat) (v w : Nat)
    (hv : hex4Val h1 h2 h3 h4 = some v) (hw : hex4Val g1 g2 g3 g4 = some w)
    (hvr : 55296 ≤ v ∧ v ≤ 56319) (hwr : 56320 ≤ w ∧ w ≤ 57343) :
    unescapeOne (92 :: 117 :: h1 :: h2 :: h3 :: h4 :: 92 :: 117 :: g1 :: g2 :: g3 :: g4 :: t) =
      some (some (65536 + (v - 55296) * 1024 + (w - 56320)), t) := by
  simp [unescapeOne, hv, hw, hvr, hwr]

/-- `unescapeOne` inverts `escChar` on every Unicode scalar value
(valid code point, no surrogate). -/
theorem unescapeOne_escChar (c : Nat) (t : List Nat)
    (hlt : c < 1114112) (hsur : ¬ (55296 ≤ c ∧ c < 57344)) :
    unescapeOne (escChar c ++ t) = some (some c, t) := by
  by_cases h34 : c = 34
  · subst h34; rfl
  by_cases h92 : c = 92
  · subst h92; rfl
  by_cases h8 : c = 8
  · subst h8; rfl
  by_cases h9 : c = 9
  · subst h9; rfl
  by_cases h10 : c = 10
  · subst h10; rfl
  by_cases h12 : c = 12
  · subst h12; rfl
  by_cases h13 : c = 13
  · subst h13; rfl
  by_cases hpr : 32 ≤ c ∧ c ≤ 126
  · rw [escChar, if_neg h34, if_neg h92, if_neg h8, if_neg h9, if_neg h10, if_neg h12,
      if_neg h13, if_pos hpr]
    simp [unescapeOne, h34, h92, (show ¬ c < 32 by omega)]
  by_cases hb : c < 65536
  · rw [escChar, if_neg h34, if_neg h92, if_neg h8, if_neg h9, if_neg h10, if_neg h12,
      if_neg h13, if_neg hpr, if_pos hb]
    rw [show (92 :: 117 :: hex4 c) ++ t = 92 :: 117 :: hexDigit (c / 4096 % 16) ::
      hexDigit (c / 256 % 16) :: hexDigit (c / 16 % 16) :: hexDigit (c % 16) :: t from rfl]
    exact unescapeOne_u_single _ _ _ _ t c (hex4Val_hex4 c hb) (by omega)
  · rw [escChar, if_neg h34, if_neg h92, if_neg h8, if_neg h9, if_neg h10, if_neg h12,
      if_neg h13, if_neg hpr, if_neg hb]
    rw [show (92 :: 117 :: hex4 (55296 + (c - 65536) / 1024) ++
        (92 :: 117 :: hex4 (56320 + (c - 65536) % 1024))) ++ t =
      92 :: 117 :: hexDigit ((55296 + (c - 65536) / 1024) / 4096 % 16) ::
        hexDigit ((55296 + (c - 65536) / 1024) / 256 % 16) ::
        hexDigit ((55296 + (c - 65536) / 1024) / 16 % 16) ::
        hexDigit ((55296 + (c - 65536) / 1024) % 16) ::
        92 :: 117 :: hexDigit ((56320 + (c - 65536) % 1024) / 4096 % 16) ::
        hexDigit ((56320 + (c - 65536) % 1024) / 256 % 16) ::
        hexDigit ((56320 + (c - 65536) % 1024) / 16 % 16) ::
        hexDigit ((56320 + (c - 65536) % 1024) % 16) :: t from rfl]
    rw [unescapeOne_u_pair _ _ _ _ _ _ _ _ t (55296 + (c - 65536) / 1024)
      (56320 + (c - 65536) % 1024)
      (hex4Val_hex4 (55296 + (c - 65536) / 1024) (by omega))
      (hex4Val_hex4 (56320 + (c - 65536) % 1024) (by omega))
      (by omega) (by omega)]
    rw [show 65536 + (55296 + (c - 65536) / 1024 - 55296) * 1024 +
        (56320 + (c - 65536) % 1024 - 56320) = c by omega]

/-- `escChar` output is never empty. -/
theorem escChar_ne_nil (c : Nat) : escChar c ≠ [] := by
  unfold escChar
  split_ifs <;> simp [hex4]

/-- The string scanner inverts `escStr` on valid strings, given fuel
beyond the escaped length. -/
theorem parseStrLoop_esc : ∀ (s : PyStr) (fuel : Nat) (rest : List Nat),
    validStr s = true → (escStr s).length + 1 ≤ fuel →
    parseStrLoop fuel (escStr s ++ (34 :: rest)) = some (s, rest) := by
  intro s
  induction s with
  | nil =>
    intro fuel rest _ hf
    match fuel, hf with
    | f + 1, _ =>
      show parseStrLoop (f + 1) (34 :: rest) = some ([], rest)
      rw [parseStrLoop]
      rfl
  | cons c s2 ih =>
    intro fuel rest hv hf
    have hvc : c < 1114112 ∧ ¬ (55296 ≤ c ∧ c < 57344) := by
      have hv' := hv
      simp [validStr] at hv'
      have ha := hv'.1.1
      have hb := hv'.1.2
      omega
    have hv2 : validStr s2 = true := by
      have hv' := hv
      simp [validStr] at hv' ⊢
      exact hv'.2
    have hlen : (escChar c).length + (escStr s2).length + 1 ≤ fuel := by
      have : escStr (c :: s2) = escChar c ++ escStr s2 := rfl
      rw [this, List.length_append] at hf
      omega
    have hpos : 1 ≤ (escChar c).length := by
      rcases hc : escChar c with _ | ⟨a, l⟩
      · exact absurd hc (escChar_ne_nil c)
      · simp
    match fuel, hlen with
    | f + 1, _ =>
      rw [show escStr (c :: s2) ++ (34 :: rest) = escChar c ++ (escStr s2 ++ (34 :: rest)) by
        simp [escStr]]
      rw [parseStrLoop, unescapeOne_escChar c _ hvc.1 hvc.2]
      show strCons c (parseStrLoop f (escStr s2 ++ (34 :: rest))) = some (c :: s2, rest)
      rw [ih f rest hv2 (by omega)]
      rfl

/-- The string scanner inverts `escStr` (packaged form). -/
theorem parseStrBody_esc (s : PyStr) (rest : List Nat) (h : validStr s = true) :
    parseStrBody (escStr s ++ (34 :: rest)) = some (s, rest) := by
  unfold parseStrBody
  apply parseStrLoop_esc s _ rest h
  simp

/-! ### Decimal digits -/

/-- `natDigitsAux` of zero is empty at any fuel. -/
theorem natDigitsAux_zero : ∀ fuel : Nat, natDigitsAux fuel 0 = [] := by
  intro fuel
  cases fuel <;> rfl

/-- Every character in `natDigitsAux` output is a digit. -/
theorem natDigitsAux_digits : ∀ (fuel n : Nat) (d : Nat), d ∈ natDigitsAux fuel n →
    isDigit d = true := by
  intro fuel
  induction fuel with
  | zero => intro n d hd; simp [natDigitsAux] at hd
  | succ f ih =>
    intro n d hd
    by_cases hn : n = 0
    · rw [natDigitsAux, if_pos hn] at hd
      simp at hd
    · rw [natDigitsAux, if_neg hn] at hd
      rcases List.mem_append.1 hd with h | h
      · exact ih (n / 10) d h
      · have : d = 48 + n % 10 := by simpa using h
        subst this
        have : n % 10 < 10 := Nat.mod_lt _ (by norm_num)
        simp [isDigit]
        omega

/-- At sufficient fuel and positive `n`, the digit string is non-empty
with a non-zero leading digit. -/
theorem natDigitsAux_head : ∀ (fuel n : Nat), 0 < n → n ≤ fuel →
    ∃ c t, natDigitsAux fuel n = c :: t ∧ 49 ≤ c ∧ c ≤ 57 := by
  intro fuel
  induction fuel with
  | zero => intro n h1 h2; omega
  | succ f ih =>
    intro n h1 h2
    rw [natDigitsAux, if_neg (by omega)]
    by_cases hq : n / 10 = 0
    · rw [hq, natDigitsAux_zero, List.nil_append]
      refine ⟨48 + n % 10, [], rfl, ?_, ?_⟩ <;> omega
    · obtain ⟨c, t, hct, hc1, hc2⟩ := ih (n / 10) (by omega) (by omega)
      exact ⟨c, t ++ [48 + n % 10], by rw [hct]; rfl, hc1, hc2⟩

/-- `digitsVal` over an append. -/
theorem digitsVal_append : ∀ (xs ys : List Nat) (acc : Nat),
    digitsVal acc (xs ++ ys) = digitsVal (digitsVal acc xs) ys := by
  intro xs
  induction xs with
  | nil => intro ys acc; rfl
  | cons x t ih =>
    intro ys acc
    show digitsVal (acc * 10 + (x - 48)) (t ++ ys) =
      digitsVal (digitsVal (acc * 10 + (x - 48)) t) ys
    exact ih ys (acc * 10 + (x - 48))

/-- `digitsVal` recovers `n` from its digit string. -/
theorem digitsVal_natDigitsAux : ∀ (fuel n acc : Nat), 0 < n → n ≤ fuel →
    digitsVal acc (natDigitsAux fuel n) =
      acc * 10 ^ (natDigitsAux fuel n).length + n := by
  intro fuel
  induction fuel with
  | zero => intro n acc h1 h2; omega
  | succ f ih =>
    intro n acc h1 h2
    rw [natDigitsAux, if_neg (by omega)]
    by_cases hq : n / 10 = 0
    · rw [hq, natDigitsAux_zero, List.nil_append]
      show acc * 10 + (48 + n % 10 - 48) = acc * 10 ^ 1 + n
      rw [pow_one]
      omega
    · rw [digitsVal_append]
      rw [ih (n / 10) acc (by omega) (by omega)]
      rw [List.length_append]
      show (acc * 10 ^ (natDigitsAux f (n / 10)).length + n / 10) * 10 + (48 + n % 10 - 48) =
        acc * 10 ^ ((natDigitsAux f (n / 10)).length + 1) + n
      rw [pow_succ, ← mul_assoc]
      generalize acc * 10 ^ (natDigitsAux f (n / 10)).length = B
      omega

/-- `parseDigits` consumes a digit run, accumulating `digitsVal`. -/
theorem parseDigits_append : ∀ (ds : List Nat) (rest : List Nat) (acc : Nat),
    (∀ d ∈ ds, isDigit d = true) →
    parseDigits acc (ds ++ rest) = parseDigits (digitsVal acc ds) rest := by
  intro ds
  induction ds with
  | nil => intro rest acc _; rfl
  | cons d t ih =>
    intro rest acc hd
    show parseDigits acc (d :: (t ++ rest)) = parseDigits (digitsVal acc (d :: t)) rest
    rw [parseDigits, if_pos (hd d (by simp))]
    exact ih rest (acc * 10 + (d - 48)) (fun x hx => hd x (by simp [hx]))

/-- `parseDigits` stops at a non-digit head. -/
theorem parseDigits_stop (acc : Nat) (rest : List Nat) (h : digitHead rest = false) :
    parseDigits acc rest = (acc, rest) := by
  cases rest with
  | nil => rfl
  | cons c t =>
    rw [parseDigits, if_neg]
    simpa [digitHead] using h

/-- `natDigits` characters are digits. -/
theorem natDigits_digits (n : Nat) : ∀ d ∈ natDigits n, isDigit d = true := by
  intro d hd
  unfold natDigits at hd
  by_cases hn : n = 0
  · rw [if_pos hn] at hd
    have : d = 48 := by simpa using hd
    subst this
    decide
  · rw [if_neg hn] at hd
    exact natDigitsAux_digits (n + 1) n d hd

/-- `digitsVal` from zero recovers `n` from `natDigits n`. -/
theorem digitsVal_natDigits (n : Nat) : digitsVal 0 (natDigits n) = n := by
  unfold natDigits
  by_cases hn : n = 0
  · rw [if_pos hn, hn]; rfl
  · rw [if_neg hn]
    rw [digitsVal_natDigitsAux (n + 1) n 0 (by omega) (by omega)]
    simp

/-- The head of `natDigits n` is a digit, non-zero when `0 < n`. -/
theorem natDigits_head (n : Nat) :
    ∃ c t, natDigits n = c :: t ∧ 48 ≤ c ∧ c ≤ 57 ∧ (0 < n → 49 ≤ c) := by
  unfold natDigits
  by_cases hn : n = 0
  · rw [if_pos hn]
    exact ⟨48, [], rfl, by omega, by omega, by omega⟩
  · rw [if_neg hn]
    obtain ⟨c, t, hct, h1, h2⟩ := natDigitsAux_head (n + 1) n (by omega) (by omega)
    exact ⟨c, t, hct, by omega, h2, fun _ => h1⟩

/-- `parseNumCore` inverts `natDigits` when a separator follows. -/
theorem parseNumCore_natDigits (n : Nat) (rest : List Nat)
    (hdh : digitHead rest = false) (hfh : floatHead rest = false) :
    parseNumCore (natDigits n ++ rest) = some (n, rest) := by
  obtain ⟨c, t, hct, h48, h57, hpos⟩ := natDigits_head n
  have hdall := natDigits_digits n
  rw [hct]
  show parseNumCore (c :: (t ++ rest)) = some (n, rest)
  have hdc : isDigit c = true := by simp [isDigit]; omega
  rw [parseNumCore]
  rw [if_neg (by simp [hdc])]
  rw [if_neg (by
    intro hcontra
    rcases hcontra with ⟨hc48, hd⟩
    have hd2 : digitHead (t ++ rest) = true := hd
    by_cases hn : n = 0
    · rw [hn, show natDigits 0 = [48] from rfl] at hct
      have ht : t = [] := by
        injection hct with _ h2
        exact h2.symm
      rw [ht, List.nil_append] at hd2
      rw [hdh] at hd2
      exact absurd hd2 (by decide)
    · have := hpos (by omega)
      omega)]
  have hall : ∀ d ∈ c :: t, isDigit d = true := by rw [← hct]; exact hdall
  rw [show (c :: (t ++ rest)) = (c :: t) ++ rest from rfl]
  rw [parseDigits_append (c :: t) rest 0 hall]
  rw [parseDigits_stop _ rest hdh]
  rw [show digitsVal 0 (c :: t) = n by rw [← hct]; exact digitsVal_natDigits n]
  show (if floatHead rest = true then none else some (n, rest)) = some (n, rest)
  rw [hfh]
  rfl

/-- `parseNum` inverts `cpInt` when a separator follows. -/
theorem parseNum_cpInt (n : Int) (rest : List Nat)
    (hdh : digitHead rest = false) (hfh : floatHead rest = false) :
    parseNum (cpInt n ++ rest) = some (n, rest) := by
  by_cases hneg : n < 0
  · rw [cpInt, if_pos hneg]
    show parseNum (45 :: (natDigits n.natAbs ++ rest)) = some (n, rest)
    rw [parseNum, if_pos rfl, parseNumCore_natDigits n.natAbs rest hdh hfh]
    show some (-(n.natAbs : Int), rest) = some (n, rest)
    rw [show -(n.natAbs : Int) = n by omega]
  · rw [cpInt, if_neg hneg]
    obtain ⟨c, t, hct, h48, h57, _⟩ := natDigits_head n.toNat
    rw [hct]
    show parseNum (c :: (t ++ rest)) = some (n, rest)
    rw [parseNum, if_neg (by omega)]
    rw [show (c :: (t ++ rest)) = (c :: t) ++ rest from rfl, ← hct]
    rw [parseNumCore_natDigits n.toNat rest hdh hfh]
    show some ((n.toNat : Int), rest) = some (n, rest)
    rw [show ((n.toNat : Int)) = n by omega]

/-! ### Heads, whitespace and separators -/

/-- The head of `cpInt` output: a minus sign or a digit. -/
theorem cpInt_head (n : Int) :
    ∃ c t, cpInt n = c :: t ∧ (c = 45 ∨ (48 ≤ c ∧ c ≤ 57)) := by
  unfold cpInt
  by_cases hneg : n < 0
  · rw [if_pos hneg]
    exact ⟨45, natDigits n.natAbs, rfl, Or.inl rfl⟩
  · rw [if_neg hneg]
    obtain ⟨c, t, hct, h48, h57, _⟩ := natDigits_head n.toNat
    exact ⟨c, t, hct, Or.inr ⟨h48, h57⟩⟩

/-- The head character of any `dumpsVal` output: never whitespace,
never a closing bracket/brace or comma. -/
theorem dumpsVal_head (x : Json) :
    ∃ c t, dumpsVal x = c :: t ∧ 34 ≤ c ∧ c ≠ 93 ∧ c ≠ 125 ∧ c ≠ 44 := by
  cases x with
  | null => exact ⟨110, _, rfl, by omega, by omega, by omega, by omega⟩
  | bool b =>
    cases b with
    | true => exact ⟨116, _, rfl, by omega, by omega, by omega, by omega⟩
    | false => exact ⟨102, _, rfl, by omega, by omega, by omega, by omega⟩
  | int n =>
    obtain ⟨c, t, hct, hc⟩ := cpInt_head n
    exact ⟨c, t, hct, by omega, by omega, by omega, by omega⟩
  | str s => exact ⟨34, _, rfl, by omega, by omega, by omega, by omega⟩
  | arr xs => exact ⟨91, _, rfl, by omega, by omega, by omega, by omega⟩
  | obj kvs => exact ⟨123, _, rfl, by omega, by omega, by omega, by omega⟩

/-- `skipWs` leaves a non-whitespace head alone. -/
theorem skipWs_cons (c : Nat) (s : List Nat) (h : 34 ≤ c) : skipWs (c :: s) = c :: s := by
  rw [skipWs, if_neg]
  simp [isJsonWs]
  omega

/-- A leading space is transparent to the value scanner. -/
theorem parseVal_space (fuel : Nat) (s : List Nat) :
    parseVal fuel (32 :: s) = parseVal fuel s := by
  cases fuel with
  | zero => rfl
  | succ f =>
    rw [parseVal, parseVal]
    rw [show skipWs (32 :: s) = skipWs s by rw [skipWs]; rfl]

/-- A leading space is transparent to the array-items scanner. -/
theorem parseArrItems_space (fuel : Nat) (s : List Nat) :
    parseArrItems fuel (32 :: s) = parseArrItems fuel s := by
  cases fuel with
  | zero => rfl
  | succ f =>
    rw [parseArrItems, parseArrItems, parseVal_space]

/-- A leading space is transparent to the object-members scanner. -/
theorem parseObjItems_space (fuel : Nat) (s : List Nat) :
    parseObjItems fuel (32 :: s) = parseObjItems fuel s := by
  cases fuel with
  | zero => rfl
  | succ f =>
    rw [parseObjItems, parseObjItems]
    rw [show skipWs (32 :: s) = skipWs s by rw [skipWs]; rfl]

/-- A separator head is neither a digit nor a float continuation. -/
theorem numSep_digitHead (rest : List Nat) (h : numSep rest = true) :
    digitHead rest = false ∧ floatHead rest = false := by
  cases rest with
  | nil => exact ⟨rfl, rfl⟩
  | cons c t =>
    have h2 : (c = 44 ∨ c = 93) ∨ c = 125 := by simpa [numSep] using h
    have h3 : digitHead (c :: t) = isDigit c := rfl
    have h4 : floatHead (c :: t) = (c = 46 || c = 101 || c = 69) := rfl
    constructor
    · rw [h3]
      simp [isDigit]
      omega
    · rw [h4]
      simp
      omega

/-- Parser fuel is always positive. -/
theorem jfuel_pos (x : Json) : 1 ≤ jfuel x := by
  cases x <;> simp [jfuel]

/-- The head of a non-empty array's rendering is its first value's head. -/
theorem dumpsArr_head (hd : Json) (tl : JArr) :
    ∃ c t, dumpsArr (.cons hd tl) = c :: t ∧ 34 ≤ c ∧ c ≠ 93 ∧ c ≠ 125 ∧ c ≠ 44 := by
  obtain ⟨c, t, hct, h1, h2, h3, h4⟩ := dumpsVal_head hd
  cases tl with
  | nil => exact ⟨c, t, by rw [dumpsArr, hct], h1, h2, h3, h4⟩
  | cons y tl2 =>
    refine ⟨c, t ++ (44 :: 32 :: dumpsArr (.cons y tl2)), ?_, h1, h2, h3, h4⟩
    rw [dumpsArr, hct]
    rfl

mutual
/-- The value scanner inverts `dumpsVal` (mutual with the array and
object member scanners). -/
theorem rtVal (x : Json) : ∀ (fuel : Nat) (rest : List Nat),
    validJson x = true → numSep rest = true → jfuel x ≤ fuel →
    parseVal fuel (dumpsVal x ++ rest) = some (x, rest) := by
  intro fuel rest hv hsep hf
  have hfp : 1 ≤ jfuel x := jfuel_pos x
  match fuel, hf with
  | 0, hf => omega
  | f + 1, hf =>
  obtain ⟨hdh, hfh⟩ := numSep_digitHead rest hsep
  cases x with
  | null =>
    rw [show dumpsVal Json.null ++ rest = 110 :: 117 :: 108 :: 108 :: rest from rfl]
    rw [parseVal, skipWs_cons 110 _ (by omega)]
    simp
  | bool b =>
    cases b with
    | true =>
      rw [show dumpsVal (Json.bool true) ++ rest = 116 :: 114 :: 117 :: 101 :: rest from rfl]
      rw [parseVal, skipWs_cons 116 _ (by omega)]
      simp
    | false =>
      rw [show dumpsVal (Json.bool false) ++ rest
        = 102 :: 97 :: 108 :: 115 :: 101 :: rest from rfl]
      rw [parseVal, skipWs_cons 102 _ (by omega)]
      simp
  | int n =>
    obtain ⟨c, t, hct, hc⟩ := cpInt_head n
    rw [show dumpsVal (Json.int n) = cpInt n from rfl, hct]
    rw [show (c :: t) ++ rest = c :: (t ++ rest) from rfl]
    rw [parseVal, skipWs_cons c _ (by omega)]
    simp only []
    rw [if_neg (show ¬ c = 110 by omega), if_neg (show ¬ c = 116 by omega),
      if_neg (show ¬ c = 102 by omega), if_neg (show ¬ c = 34 by omega),
      if_neg (show ¬ c = 91 by omega), if_neg (show ¬ c = 123 by omega)]
    rw [show c :: (t ++ rest) = (c :: t) ++ rest from rfl, ← hct]
    rw [parseNum_cpInt n rest hdh hfh]
    rfl
  | str s =>
    have hvs : validStr s = true := by simpa [validJson] using hv
    rw [show dumpsVal (Json.str s) ++ rest = 34 :: (escStr s ++ (34 :: rest)) by
      simp [dumpsVal]]
    rw [parseVal, skipWs_cons 34 _ (by omega)]
    simp only []
    rw [if_neg (by decide), if_neg (by decide), if_neg (by decide), if_pos (by trivial)]
    rw [parseStrBody_esc s rest hvs]
    rfl
  | arr xs =>
    cases xs with
    | nil =>
      rw [show dumpsVal (Json.arr JArr.nil) ++ rest = 91 :: 93 :: rest from rfl]
      rw [parseVal, skipWs_cons 91 _ (by omega)]
      simp only []
      rw [if_neg (by decide), if_neg (by decide), if_neg (by decide), if_neg (by decide),
        if_pos (by trivial)]
      rw [skipWs_cons 93 rest (by omega)]
      simp only []
      rw [if_pos (by trivial)]
    | cons hd tl =>
      have hv1 : validJson hd = true ∧ validArr tl = true := by
        have hv' := hv
        simp [validJson, validArr] at hv'
        exact hv'
      have hje : jfuel (Json.arr (JArr.cons hd tl)) = 1 + jfuelArr (JArr.cons hd tl) := rfl
      obtain ⟨c2, t2, hct2, h34b, h93b, _, _⟩ := dumpsArr_head hd tl
      rw [show dumpsVal (Json.arr (JArr.cons hd tl)) ++ rest
          = 91 :: (dumpsArr (JArr.cons hd tl) ++ (93 :: rest)) by simp [dumpsVal]]
      rw [parseVal, skipWs_cons 91 _ (by omega)]
      simp only []
      rw [if_neg (by decide), if_neg (by decide), if_neg (by decide), if_neg (by decide),
        if_pos (by trivial)]
      rw [hct2, show (c2 :: t2) ++ (93 :: rest) = c2 :: (t2 ++ (93 :: rest)) from rfl]
      rw [skipWs_cons c2 _ (by omega)]
      simp only []
      rw [if_neg (show ¬ c2 = 93 by omega)]
      rw [show c2 :: (t2 ++ (93 :: rest)) = dumpsArr (JArr.cons hd tl) ++ (93 :: rest) by
        rw [hct2]; rfl]
      rw [rtArr hd tl f rest hv1.1 hv1.2 hsep (by omega)]
      rfl
  | obj kvs =>
    cases kvs with
    | nil =>
      rw [show dumpsVal (Json.obj JObj.nil) ++ rest = 123 :: 125 :: rest from rfl]
      rw [parseVal, skipWs_cons 123 _ (by omega)]
      simp only []
      rw [if_neg (by decide), if_neg (by decide), if_neg (by decide), if_neg (by decide),
        if_neg (by decide), if_pos (by trivial)]
      rw [skipWs_cons 125 rest (by omega)]
      simp only []
      rw [if_pos (by trivial)]
    | cons k v tl =>
      have hv1 : validStr k = true ∧ validJson v = true ∧ validObj tl = true := by
        have hv' := hv
        simp [validJson, validObj] at hv'
        exact ⟨hv'.1.1, hv'.1.2, hv'.2⟩
      have hje : jfuel (Json.obj (JObj.cons k v tl)) = 1 + jfuelObj (JObj.cons k v tl) := rfl
      rw [show dumpsVal (Json.obj (JObj.cons k v tl)) ++ rest
          = 123 :: (dumpsObj (JObj.cons k v tl) ++ (125 :: rest)) by simp [dumpsVal]]
      rw [parseVal, skipWs_cons 123 _ (by omega)]
      simp only []
      rw [if_neg (by decide), if_neg (by decide), if_neg (by decide), if_neg (by decide),
        if_neg (by decide), if_pos (by trivial)]
      have hobj : ∃ t3, dumpsObj (JObj.cons k v tl) = 34 :: t3 := by
        cases tl <;> exact ⟨_, rfl⟩
      obtain ⟨t3, ht3⟩ := hobj
      rw [ht3, show (34 :: t3) ++ (125 :: rest) = 34 :: (t3 ++ (125 :: rest)) from rfl]
      rw [skipWs_cons 34 _ (by omega)]
      simp only []
      rw [if_neg (by decide)]
      rw [show 34 :: (t3 ++ (125 :: rest)) = dumpsObj (JObj.cons k v tl) ++ (125 :: rest) by
        rw [ht3]; rfl]
      rw [rtObj k v tl f rest hv1.1 hv1.2.1 hv1.2.2 hsep (by omega)]
      rfl

/-- The array-items scanner inverts `dumpsArr` on non-empty arrays. -/
theorem rtArr (hd : Json) (tl : JArr) : ∀ (fuel : Nat) (rest : List Nat),
    validJson hd = true → validArr tl = true → numSep rest = true →
    jfuelArr (.cons hd tl) ≤ fuel →
    parseArrItems fuel (dumpsArr (.cons hd tl) ++ (93 :: rest)) = some (.cons hd tl, rest) := by
  intro fuel rest hv1 hv2 hsep hf
  have hje : jfuelArr (JArr.cons hd tl) = 1 + jfuel hd + jfuelArr tl := rfl
  have hfp : 1 ≤ jfuel hd := jfuel_pos hd
  match fuel, hf with
  | 0, hf => omega
  | f + 1, hf =>
  cases tl with
  | nil =>
    rw [show dumpsArr (JArr.cons hd JArr.nil) ++ (93 :: rest)
        = dumpsVal hd ++ (93 :: rest) from rfl]
    rw [parseArrItems]
    rw [rtVal hd f (93 :: rest) hv1 (by rfl) (by
      have : jfuelArr JArr.nil = 0 := rfl
      omega)]
    simp only []
    rw [skipWs_cons 93 rest (by omega)]
    simp only []
    rw [if_neg (by decide), if_pos (by trivial)]
  | cons y tl2 =>
    have hval : validJson y = true ∧ validArr tl2 = true := by
      have hv' := hv2
      simp [validArr] at hv'
      exact hv'
    have hje2 : jfuelArr (JArr.cons y tl2) = 1 + jfuel y + jfuelArr tl2 := rfl
    rw [show dumpsArr (JArr.cons hd (JArr.cons y tl2)) ++ (93 :: rest)
        = dumpsVal hd ++ (44 :: 32 :: (dumpsArr (JArr.cons y tl2) ++ (93 :: rest))) by
      rw [dumpsArr]
      simp]
    rw [parseArrItems]
    rw [rtVal hd f _ hv1 (by rfl) (by omega)]
    simp only []
    rw [skipWs_cons 44 _ (by omega)]
    simp only []
    rw [if_pos (by trivial)]
    rw [parseArrItems_space]
    rw [rtArr y tl2 f rest hval.1 hval.2 hsep (by omega)]

/-- The object-members scanner inverts `dumpsObj` on non-empty objects. -/
theorem rtObj (k : List Nat) (v : Json) (tl : JObj) : ∀ (fuel : Nat) (rest : List Nat),
    validStr k = true → validJson v = true → validObj tl = true → numSep rest = true →
    jfuelObj (.cons k v tl) ≤ fuel →
    parseObjItems fuel (dumpsObj (.cons k v tl) ++ (125 :: rest)) = some (.cons k v tl, rest) := by
  intro fuel rest hvk hvv hvt hsep hf
  have hje : jfuelObj (JObj.cons k v tl) = 1 + jfuel v + jfuelObj tl := rfl
  have hfp : 1 ≤ jfuel v := jfuel_pos v
  match fuel, hf with
  | 0, hf => omega
  | f + 1, hf =>
  cases tl with
  | nil =>
    rw [show dumpsObj (JObj.cons k v JObj.nil) ++ (125 :: rest)
        = 34 :: (escStr k ++ (34 :: 58 :: 32 :: (dumpsVal v ++ (125 :: rest)))) by
      rw [dumpsObj]
      simp]
    rw [parseObjItems]
    rw [skipWs_cons 34 _ (by omega)]
    simp only []
    rw [if_pos (by trivial)]
    rw [show escStr k ++ (34 :: 58 :: 32 :: (dumpsVal v ++ (125 :: rest)))
        = escStr k ++ (34 :: (58 :: 32 :: (dumpsVal v ++ (125 :: rest)))) from rfl]
    rw [parseStrBody_esc k _ hvk]
    simp only []
    rw [skipWs_cons 58 _ (by omega)]
    simp only []
    rw [if_pos (by trivial)]
    rw [parseVal_space]
    rw [rtVal v f (125 :: rest) hvv (by rfl) (by
      have : jfuelObj JObj.nil = 0 := rfl
      omega)]
    simp only []
    rw [skipWs_cons 125 rest (by omega)]
    simp only []
    rw [if_neg (by decide), if_pos (by trivial)]
  | cons k2 v2 tl2 =>
    have hval : validStr k2 = true ∧ validJson v2 = true ∧ validObj tl2 = true := by
      have hv' := hvt
      simp [validObj] at hv'
      exact ⟨hv'.1.1, hv'.1.2, hv'.2⟩
    have hje2 : jfuelObj (JObj.cons k2 v2 tl2) = 1 + jfuel v2 + jfuelObj tl2 := rfl
    rw [show dumpsObj (JObj.cons k v (JObj.cons k2 v2 tl2)) ++ (125 :: rest)
        = 34 :: (escStr k ++ (34 :: 58 :: 32 :: (dumpsVal v ++
          (44 :: 32 :: (dumpsObj (JObj.cons k2 v2 tl2) ++ (125 :: rest)))))) by
      rw [dumpsObj]
      simp]
    rw [parseObjItems]
    rw [skipWs_cons 34 _ (by omega)]
    simp only []
    rw [if_pos (by trivial)]
    rw [show escStr k ++ (34 :: 58 :: 32 :: (dumpsVal v ++
        (44 :: 32 :: (dumpsObj (JObj.cons k2 v2 tl2) ++ (125 :: rest)))))
        = escStr k ++ (34 :: (58 :: 32 :: (dumpsVal v ++
          (44 :: 32 :: (dumpsObj (JObj.cons k2 v2 tl2) ++ (125 :: rest)))))) from rfl]
    rw [parseStrBody_esc k _ hvk]
    simp only []
    rw [skipWs_cons 58 _ (by omega)]
    simp only []
    rw [if_pos (by trivial)]
    rw [parseVal_space]
    rw [rtVal v f _ hvv (by rfl) (by omega)]
    simp only []
    rw [skipWs_cons 44 _ (by omega)]
    simp only []
    rw [if_pos (by trivial)]
    rw [parseObjItems_space]
    rw [rtObj k2 v2 tl2 f rest hval.1 hval.2.1 hval.2.2 hsep (by omega)]
end

/-! ### `dumpsVal` output is pure ASCII (`ensure_ascii=True`) -/

/-- Hex digit characters are ASCII. -/
theorem hexDigit_lt128 (n : Nat) (h : n < 16) : hexDigit n < 128 := by
  unfold hexDigit
  split_ifs <;> omega

/-- Hex-quad characters are ASCII. -/
theorem hex4_lt128 (n : Nat) : ∀ b ∈ hex4 n, b < 128 := by
  intro b hb
  simp [hex4] at hb
  rcases hb with hb | hb | hb | hb <;>
    (subst hb; exact hexDigit_lt128 _ (Nat.mod_lt _ (by norm_num)))

/-- Every escaped character is ASCII. -/
theorem escChar_lt128 (c : Nat) : ∀ b ∈ escChar c, b < 128 := by
  intro b hb
  unfold escChar at hb
  split_ifs at hb with h1 h2 h3 h4 h5 h6 h7 h8 h9
  · simp at hb; omega
  · simp at hb; omega
  · simp at hb; omega
  · simp at hb; omega
  · simp at hb; omega
  · simp at hb; omega
  · simp at hb; omega
  · simp at hb; omega
  · rcases List.mem_cons.1 hb with h | h
    · omega
    rcases List.mem_cons.1 h with h | h
    · omega
    exact hex4_lt128 c b h
  · rcases List.mem_cons.1 hb with h | h
    · omega
    rcases List.mem_cons.1 h with h | h
    · omega
    rcases List.mem_append.1 h with h | h
    · exact hex4_lt128 _ b h
    rcases List.mem_cons.1 h with h | h
    · omega
    rcases List.mem_cons.1 h with h | h
    · omega
    exact hex4_lt128 _ b h

/-- An escaped string is ASCII. -/
theorem escStr_lt128 (s : PyStr) : ∀ b ∈ escStr s, b < 128 := by
  induction s with
  | nil => intro b hb; simp [escStr] at hb
  | cons c t ih =>
    intro b hb
    rw [escStr] at hb
    rcases List.mem_append.1 hb with h | h
    · exact escChar_lt128 c b h
    · exact ih b h

/-- Decimal digit strings are ASCII. -/
theorem natDigits_lt128 (n : Nat) : ∀ b ∈ natDigits n, b < 128 := by
  intro b hb
  have := natDigits_digits n b hb
  simp [isDigit] at this
  omega

/-- `cpInt` output is ASCII. -/
theorem cpInt_lt128 (n : Int) : ∀ b ∈ cpInt n, b < 128 := by
  intro b hb
  unfold cpInt at hb
  split_ifs at hb
  · rcases List.mem_cons.1 hb with h | h
    · omega
    · exact natDigits_lt128 _ b h
  · exact natDigits_lt128 _ b hb

mutual
/-- `dumpsVal` output is ASCII. -/
theorem dumpsVal_lt128 (x : Json) : ∀ b ∈ dumpsVal x, b < 128 := by
  intro b hb
  cases x with
  | null =>
    simp [dumpsVal] at hb
    omega
  | bool bb =>
    cases bb <;> (simp [dumpsVal] at hb; omega)
  | int n => exact cpInt_lt128 n b hb
  | str s =>
    rw [dumpsVal] at hb
    rcases List.mem_cons.1 hb with h | h
    · omega
    · rcases List.mem_append.1 h with h | h
      · exact escStr_lt128 s b h
      · simp at h; omega
  | arr xs =>
    rw [dumpsVal] at hb
    rcases List.mem_cons.1 hb with h | h
    · omega
    · rcases List.mem_append.1 h with h | h
      · exact dumpsArr_lt128 xs b h
      · simp at h; omega
  | obj kvs =>
    rw [dumpsVal] at hb
    rcases List.mem_cons.1 hb with h | h
    · omega
    · rcases List.mem_append.1 h with h | h
      · exact dumpsObj_lt128 kvs b h
      · simp at h; omega

/-- `dumpsArr` output is ASCII. -/
theorem dumpsArr_lt128 (xs : JArr) : ∀ b ∈ dumpsArr xs, b < 128 := by
  intro b hb
  cases xs with
  | nil => simp [dumpsArr] at hb
  | cons x tl =>
    cases tl with
    | nil =>
      rw [dumpsArr] at hb
      exact dumpsVal_lt128 x b hb
    | cons y tl2 =>
      rw [dumpsArr] at hb
      rcases List.mem_append.1 hb with h | h
      · exact dumpsVal_lt128 x b h
      · rcases List.mem_cons.1 h with h | h
        · omega
        · rcases List.mem_cons.1 h with h | h
          · omega
          · exact dumpsArr_lt128 (JArr.cons y tl2) b h

/-- `dumpsObj` output is ASCII. -/
theorem dumpsObj_lt128 (kvs : JObj) : ∀ b ∈ dumpsObj kvs, b < 128 := by
  intro b hb
  cases kvs with
  | nil => simp [dumpsObj] at hb
  | cons k v tl =>
    cases tl with
    | nil =>
      rw [dumpsObj] at hb
      rcases List.mem_cons.1 hb with h | h
      · omega
      · rcases List.mem_append.1 h with h | h
        · exact escStr_lt128 k b h
        · rcases List.mem_cons.1 h with h | h
          · omega
          · rcases List.mem_cons.1 h with h | h
            · omega
            · rcases List.mem_cons.1 h with h | h
              · omega
              · exact dumpsVal_lt128 v b h
    | cons k2 v2 tl2 =>
      rw [dumpsObj] at hb
      rcases List.mem_cons.1 hb with h | h
      · omega
      · rcases List.mem_append.1 h with h | h
        · exact escStr_lt128 k b h
        · rcases List.mem_cons.1 h with h | h
          · omega
          · rcases List.mem_cons.1 h with h | h
            · omega
            · rcases List.mem_cons.1 h with h | h
              · omega
              · rcases List.mem_append.1 h with h | h
                · exact dumpsVal_lt128 v b h
                · rcases List.mem_cons.1 h with h | h
                  · omega
                  · rcases List.mem_cons.1 h with h | h
                    · omega
                    · exact dumpsObj_lt128 (JObj.cons k2 v2 tl2) b h
end

/-! ### UTF-8 is the identity on ASCII -/

/-- Encoding ASCII code points is the identity. -/
theorem utf8Encode_ascii (s : PyStr) (h : ∀ b ∈ s, b < 128) : utf8Encode s = s := by
  induction s with
  | nil => rfl
  | cons c t ih =>
    rw [utf8Encode]
    rw [show utf8Char c = [c] by rw [utf8Char, if_pos (h c (List.mem_cons_self c t))]]
    rw [ih (fun b hb => h b (List.mem_cons_of_mem c hb))]
    rfl

/-- Decoding ASCII bytes is the identity (loop form). -/
theorem utf8DecodeLoop_ascii : ∀ (fuel : Nat) (s : List Nat),
    (∀ b ∈ s, b < 128) → s.length ≤ fuel → utf8DecodeLoop fuel s = some s := by
  intro fuel
  induction fuel with
  | zero =>
    intro s h hl
    cases s with
    | nil => rfl
    | cons c t => simp at hl
  | succ f ih =>
    intro s h hl
    cases s with
    | nil => rfl
    | cons c t =>
      have hc : c < 128 := h c (List.mem_cons_self c t)
      rw [utf8DecodeLoop]
      rw [show utf8DecodeOne c t = some (c, t) by rw [utf8DecodeOne, if_pos hc]]
      show (match utf8DecodeLoop f t with
        | some s => some (c :: s)
        | none => none) = some (c :: t)
      rw [ih t (fun b hb => h b (List.mem_cons_of_mem c hb)) (by simp at hl; omega)]

/-- Decoding ASCII bytes is the identity. -/
theorem utf8Decode_ascii (s : List Nat) (h : ∀ b ∈ s, b < 128) : utf8Decode s = some s :=
  utf8DecodeLoop_ascii s.length s h (by omega)

/-! ### The fuel bound -/

mutual
/-- `jfuel` is bounded by the rendered length plus one. -/
theorem jfuel_le (x : Json) : jfuel x ≤ (dumpsVal x).length + 1 := by
  cases x with
  | null => rw [show jfuel Json.null = 1 from rfl]; omega
  | bool b => cases b <;> (rw [show jfuel (Json.bool _) = 1 from rfl]; omega)
  | int n => rw [show jfuel (Json.int n) = 1 from rfl]; omega
  | str s => rw [show jfuel (Json.str s) = 1 from rfl]; omega
  | arr xs =>
    have h := jfuelArr_le xs
    have : (dumpsVal (Json.arr xs)).length = (dumpsArr xs).length + 2 := by
      rw [dumpsVal]
      simp
    rw [show jfuel (Json.arr xs) = 1 + jfuelArr xs from rfl, this]
    omega
  | obj kvs =>
    have h := jfuelObj_le kvs
    have : (dumpsVal (Json.obj kvs)).length = (dumpsObj kvs).length + 2 := by
      rw [dumpsVal]
      simp
    rw [show jfuel (Json.obj kvs) = 1 + jfuelObj kvs from rfl, this]
    omega

/-- `jfuelArr` is bounded by the rendered items length plus two. -/
theorem jfuelArr_le (xs : JArr) : jfuelArr xs ≤ (dumpsArr xs).length + 2 := by
  cases xs with
  | nil => simp [jfuelArr, dumpsArr]
  | cons x tl =>
    cases tl with
    | nil =>
      have h := jfuel_le x
      rw [show jfuelArr (JArr.cons x JArr.nil) = 1 + jfuel x + jfuelArr JArr.nil from rfl,
        show jfuelArr JArr.nil = 0 from rfl,
        show dumpsArr (JArr.cons x JArr.nil) = dumpsVal x from rfl]
      omega
    | cons y tl2 =>
      have h1 := jfuel_le x
      have h2 := jfuelArr_le (JArr.cons y tl2)
      rw [show jfuelArr (JArr.cons x (JArr.cons y tl2))
          = 1 + jfuel x + jfuelArr (JArr.cons y tl2) from rfl]
      have : (dumpsArr (JArr.cons x (JArr.cons y tl2))).length
          = (dumpsVal x).length + 2 + (dumpsArr (JArr.cons y tl2)).length := by
        rw [dumpsArr]
        simp
        omega
      rw [this]
      omega

/-- `jfuelObj` is bounded by the rendered members length plus two. -/
theorem jfuelObj_le (kvs : JObj) : jfuelObj kvs ≤ (dumpsObj kvs).length + 2 := by
  cases kvs with
  | nil => simp [jfuelObj, dumpsObj]
  | cons k v tl =>
    cases tl with
    | nil =>
      have h := jfuel_le v
      rw [show jfuelObj (JObj.cons k v JObj.nil) = 1 + jfuel v + jfuelObj JObj.nil from rfl,
        show jfuelObj JObj.nil = 0 from rfl]
      have : (dumpsObj (JObj.cons k v JObj.nil)).length
          = (escStr k).length + 4 + (dumpsVal v).length := by
        rw [dumpsObj]
        simp
        omega
      rw [this]
      omega
    | cons k2 v2 tl2 =>
      have h1 := jfuel_le v
      have h2 := jfuelObj_le (JObj.cons k2 v2 tl2)
      rw [show jfuelObj (JObj.cons k v (JObj.cons k2 v2 tl2))
          = 1 + jfuel v + jfuelObj (JObj.cons k2 v2 tl2) from rfl]
      have : (dumpsObj (JObj.cons k v (JObj.cons k2 v2 tl2))).length
          = (escStr k).length + 6 + (dumpsVal v).length
            + (dumpsObj (JObj.cons k2 v2 tl2)).length := by
        rw [dumpsObj]
        simp
        omega
      rw [this]
      omega
end

/-- C4: for every opcode and JSON-serializable payload (strings made of
Unicode scalar values; integer numbers — floats are outside the model),
encoding with `send_packet` (8-byte little-endian header, then exactly
`len` UTF-8 JSON bytes) and decoding the resulting bytes with
`recv_packet` yields the payload unchanged. -/
theorem c4_ipc_round_trip (op : Nat) (x : Json) (bs : List Nat)
    (hv : validJson x = true) (hs : sendPacket op x = some bs) :
    recvPacket bs = some x := by
  have hascii : ∀ b ∈ dumpsVal x, b < 128 := dumpsVal_lt128 x
  have henc : utf8Encode (dumpsVal x) = dumpsVal x := utf8Encode_ascii _ hascii
  rw [sendPacket] at hs
  simp only [henc] at hs
  split at hs
  next hcond =>
    injection hs with hs
    subst hs
    rw [le32, le32]
    rw [show ([op % 256, op / 256 % 256, op / 65536 % 256, op / 16777216 % 256] ++
      ([(dumpsVal x).length % 256, (dumpsVal x).length / 256 % 256,
        (dumpsVal x).length / 65536 % 256, (dumpsVal x).length / 16777216 % 256] ++ dumpsVal x))
      = op % 256 :: op / 256 % 256 :: op / 65536 % 256 :: op / 16777216 % 256 ::
        (dumpsVal x).length % 256 :: (dumpsVal x).length / 256 % 256 ::
        (dumpsVal x).length / 65536 % 256 :: (dumpsVal x).length / 16777216 % 256 ::
        dumpsVal x from rfl]
    show (match utf8Decode ((dumpsVal x).take (de32 ((dumpsVal x).length % 256)
      ((dumpsVal x).length / 256 % 256) ((dumpsVal x).length / 65536 % 256)
      ((dumpsVal x).length / 16777216 % 256))) with
      | some chars => jsonLoads chars
      | none => none) = some x
    rw [show de32 ((dumpsVal x).length % 256) ((dumpsVal x).length / 256 % 256)
      ((dumpsVal x).length / 65536 % 256) ((dumpsVal x).length / 16777216 % 256)
      = (dumpsVal x).length by
        unfold de32
        omega]
    rw [List.take_length]
    rw [utf8Decode_ascii _ hascii]
    show jsonLoads (dumpsVal x) = some x
    rw [jsonLoads]
    have hrt := rtVal x ((dumpsVal x).length + 1) [] hv rfl (by
      have := jfuel_le x
      omega)
    rw [List.append_nil] at hrt
    rw [hrt]
    rfl
  next => exact absurd hs (by simp)

/-- C4 witness: the round trip at a concrete payload exercising every
constructor (nested object/array, negative number, escapes, an astral
code point). -/
theorem c4_witness :
    validJson jw = true ∧
    recvPacket (le32 1 ++ (le32 (utf8Encode (dumpsVal jw)).length ++ utf8Encode (dumpsVal jw)))
      = some jw :=
  ⟨by decide, c4_ipc_round_trip 1 jw _ (by decide) (by decide)⟩
